import Mathlib

/-!
Verification of the Thrift Python runtime (protocol codec, framed Tornado
transport, connection read lock, SASL client negotiation) against its
natural-language specification.

The generic codec in `thrift/protocol/TProtocol.py` is written against the
abstract `TProtocolBase` primitive interface (`readBool`, `readFieldBegin`,
`writeListBegin`, ...).  We embed that interface shallowly as a stream of
wire `Token`s: each abstract primitive consumes or emits exactly one token.
The algorithms layered on top (`skip`, `readStruct`, `writeStruct`, the
container readers/writers and the `_TTYPE_HANDLERS` dispatch table) are
translated from the source.
-/

/-! ### Wire type tags (`TType` in `thrift/Thrift.py`) -/

namespace TType

def STOP : Nat := 0
def VOID : Nat := 1
def BOOL : Nat := 2
def BYTE : Nat := 3
def DOUBLE : Nat := 4
def I16 : Nat := 6
def I32 : Nat := 8
def I64 : Nat := 10
def STRING : Nat := 11
def STRUCT : Nat := 12
def MAP : Nat := 13
def SET : Nat := 14
def LIST : Nat := 15
def UUID : Nat := 16
def UTF16 : Nat := 17

end TType

/-! ### Wire tokens

One token per abstract `TProtocolBase` primitive call.  `fieldBegin`
carries the optional field name (written by `writeFieldBegin`, ignored on
read), the wire type tag and the field id (field ids arrive as signed
integers on the wire).  A double's 8-byte payload is carried opaquely as
an `Int`; the codec never inspects it. -/

inductive Token where
  | structBegin : Token
  | structEnd : Token
  | fieldBegin (name : Option String) (ttype : Nat) (fid : Int) : Token
  | fieldEnd : Token
  | mapBegin (ktype vtype : Nat) (size : Nat) : Token
  | mapEnd : Token
  | listBegin (etype : Nat) (size : Nat) : Token
  | listEnd : Token
  | setBegin (etype : Nat) (size : Nat) : Token
  | setEnd : Token
  | tBool (b : Bool) : Token
  | tByte (i : Int) : Token
  | tI16 (i : Int) : Token
  | tI32 (i : Int) : Token
  | tI64 (i : Int) : Token
  | tDouble (payload : Int) : Token
  | tString (s : String) : Token
  | tUuid (u : Nat) : Token
deriving DecidableEq, Repr

/-! ### Codec errors (`TProtocolException` types, plus model-level markers)

`invalidData` is `TProtocolException.INVALID_DATA` raised by the generic
code itself.  `badToken` marks a primitive read hitting a token of the
wrong shape (in a concrete protocol this would be whatever that protocol
does on malformed bytes), `badSpec` marks a malformed `thrift_spec`
(a Python `TypeError`/`AttributeError`), and `fuelOut` is the artificial
exhaustion marker of the fuel-indexed recursion in this model. -/

inductive PErr where
  | invalidData : PErr
  | badToken : PErr
  | badSpec : PErr
  | fuelOut : PErr
deriving DecidableEq, Repr

/-! ### Wire values

`TVal` describes one self-consistent encoded value as it appears on the
wire.  Containers record the element type tags declared in their begin
markers; struct fields record the field id sent on the wire.  The lists
are spelled as bespoke mutual inductives (`FList` for struct fields,
`PList` for map pairs, `VList` for list/set elements) so that every
function below is compiled by structural recursion and reduces inside
`decide`/`rfl`. -/

mutual
inductive TVal where
  | vBool (b : Bool) : TVal
  | vByte (i : Int) : TVal
  | vDouble (payload : Int) : TVal
  | vI16 (i : Int) : TVal
  | vI32 (i : Int) : TVal
  | vI64 (i : Int) : TVal
  | vString (s : String) : TVal
  | vBinary (s : String) : TVal
  | vUuid (u : Nat) : TVal
  | vStruct (fs : FList) : TVal
  | vMap (kt vt : Nat) (ps : PList) : TVal
  | vSet (et : Nat) (es : VList) : TVal
  | vList (et : Nat) (es : VList) : TVal

inductive FList where
  | nil : FList
  | cons (fid : Int) (v : TVal) (rest : FList) : FList

inductive PList where
  | nil : PList
  | cons (k v : TVal) (rest : PList) : PList

inductive VList where
  | nil : VList
  | cons (v : TVal) (rest : VList) : VList
end

/-- Wire type tag of a value, as declared in the marker that precedes it. -/
def wireOf : TVal → Nat
  | .vBool _ => TType.BOOL
  | .vByte _ => TType.BYTE
  | .vDouble _ => TType.DOUBLE
  | .vI16 _ => TType.I16
  | .vI32 _ => TType.I32
  | .vI64 _ => TType.I64
  | .vString _ => TType.STRING
  | .vBinary _ => TType.STRING
  | .vUuid _ => TType.UUID
  | .vStruct _ => TType.STRUCT
  | .vMap _ _ _ => TType.MAP
  | .vSet _ _ => TType.SET
  | .vList _ _ => TType.LIST

mutual
/-- Token stream of one encoded value.  A struct body is its fields in
order followed by a STOP field marker, mirroring §3 invariant (a). -/
def encV : TVal → List Token
  | .vBool b => [.tBool b]
  | .vByte i => [.tByte i]
  | .vDouble p => [.tDouble p]
  | .vI16 i => [.tI16 i]
  | .vI32 i => [.tI32 i]
  | .vI64 i => [.tI64 i]
  | .vString s => [.tString s]
  | .vBinary s => [.tString s]
  | .vUuid u => [.tUuid u]
  | .vStruct fs =>
      .structBegin :: (encF fs ++ [.fieldBegin none TType.STOP 0, .structEnd])
  | .vMap kt vt ps =>
      .mapBegin kt vt (plen ps) :: (encP ps ++ [.mapEnd])
  | .vSet et es =>
      .setBegin et (vlen es) :: (encL es ++ [.setEnd])
  | .vList et es =>
      .listBegin et (vlen es) :: (encL es ++ [.listEnd])

def encF : FList → List Token
  | .nil => []
  | .cons fid v rest =>
      .fieldBegin none (wireOf v) fid :: (encV v ++ (.fieldEnd :: encF rest))

def encP : PList → List Token
  | .nil => []
  | .cons k v rest => encV k ++ (encV v ++ encP rest)

def encL : VList → List Token
  | .nil => []
  | .cons v rest => encV v ++ encL rest

def plen : PList → Nat
  | .nil => 0
  | .cons _ _ rest => plen rest + 1

def vlen : VList → Nat
  | .nil => 0
  | .cons _ rest => vlen rest + 1
end

example : encV (.vList TType.BOOL (.cons (.vBool true) .nil))
    = [.listBegin TType.BOOL 1, .tBool true, .listEnd] := rfl

/-! ### Field specifications (`thrift_spec`)

A generated `thrift_spec` is a Python sequence whose entries are either
`None` or tuples `(fid, ftype, fname, fspec, default)`; `readStruct`
indexes it with the field id read off the wire (`thrift_spec[fid]`),
which follows Python sequence-indexing semantics including negative
indices.  `FSpec` is the per-field type payload (`field[3]`): `'BINARY'`
for raw-bytes strings, container specs for MAP/SET/LIST (with the
"produce immutable variant" flag) and the nested class spec for STRUCT
(the generated `read`/`write` of a nested struct class delegates to
`readStruct`/`writeStruct` with that class's `thrift_spec`). -/

mutual
inductive FSpec where
  | scalar : FSpec
  | binarySpec : FSpec
  | listSpec (et : Nat) (espec : FSpec) (imm : Bool) : FSpec
  | setSpec (et : Nat) (espec : FSpec) (imm : Bool) : FSpec
  | mapSpec (kt : Nat) (kspec : FSpec) (vt : Nat) (vspec : FSpec) (imm : Bool) : FSpec
  | structSpec (sp : SpecList) : FSpec

inductive FieldE where
  | mk (fid : Int) (ftype : Nat) (fname : String) (fspec : FSpec) : FieldE

inductive SpecList where
  | nil : SpecList
  | consNone (rest : SpecList) : SpecList
  | consSome (e : FieldE) (rest : SpecList) : SpecList
end

def FieldE.ffid : FieldE → Int
  | .mk fid _ _ _ => fid

def FieldE.ftype : FieldE → Nat
  | .mk _ t _ _ => t

def FieldE.fname : FieldE → String
  | .mk _ _ n _ => n

def FieldE.fspec : FieldE → FSpec
  | .mk _ _ _ sp => sp

def slen : SpecList → Nat
  | .nil => 0
  | .consNone rest => slen rest + 1
  | .consSome _ rest => slen rest + 1

/-- Positional access; `none` models a raised `IndexError`. -/
def sget : SpecList → Nat → Option (Option FieldE)
  | .nil, _ => none
  | .consNone _, 0 => some none
  | .consSome e _, 0 => some (some e)
  | .consNone rest, n + 1 => sget rest n
  | .consSome _ rest, n + 1 => sget rest n

/-- Python sequence indexing `thrift_spec[fid]` as used by `readStruct`:
non-negative ids index from the front, negative ids with `-len <= fid`
alias position `len + fid`, anything else raises `IndexError` (`none`). -/
def pyIndex (sp : SpecList) (fid : Int) : Option (Option FieldE) :=
  if 0 ≤ fid then sget sp fid.toNat
  else if 0 ≤ (slen sp : Int) + fid then sget sp ((slen sp : Int) + fid).toNat
  else none

/-! ### Primitive token readers

One per abstract `TProtocolBase.read*` primitive.  A token of the wrong
shape fails with `badToken` (the concrete protocol's malformed-input
behaviour, outside the generic layer being verified). -/

def readStructBeginT : List Token → Except PErr (List Token)
  | .structBegin :: rest => .ok rest
  | _ => .error .badToken

def readStructEndT : List Token → Except PErr (List Token)
  | .structEnd :: rest => .ok rest
  | _ => .error .badToken

def readFieldBeginT : List Token → Except PErr ((Nat × Int) × List Token)
  | .fieldBegin _ t fid :: rest => .ok ((t, fid), rest)
  | _ => .error .badToken

def readFieldEndT : List Token → Except PErr (List Token)
  | .fieldEnd :: rest => .ok rest
  | _ => .error .badToken

def readMapBeginT : List Token → Except PErr ((Nat × Nat × Nat) × List Token)
  | .mapBegin kt vt n :: rest => .ok ((kt, vt, n), rest)
  | _ => .error .badToken

def readMapEndT : List Token → Except PErr (List Token)
  | .mapEnd :: rest => .ok rest
  | _ => .error .badToken

def readListBeginT : List Token → Except PErr ((Nat × Nat) × List Token)
  | .listBegin et n :: rest => .ok ((et, n), rest)
  | _ => .error .badToken

def readListEndT : List Token → Except PErr (List Token)
  | .listEnd :: rest => .ok rest
  | _ => .error .badToken

def readSetBeginT : List Token → Except PErr ((Nat × Nat) × List Token)
  | .setBegin et n :: rest => .ok ((et, n), rest)
  | _ => .error .badToken

def readSetEndT : List Token → Except PErr (List Token)
  | .setEnd :: rest => .ok rest
  | _ => .error .badToken

def readBoolT : List Token → Except PErr (Bool × List Token)
  | .tBool b :: rest => .ok (b, rest)
  | _ => .error .badToken

def readByteT : List Token → Except PErr (Int × List Token)
  | .tByte i :: rest => .ok (i, rest)
  | _ => .error .badToken

def readI16T : List Token → Except PErr (Int × List Token)
  | .tI16 i :: rest => .ok (i, rest)
  | _ => .error .badToken

def readI32T : List Token → Except PErr (Int × List Token)
  | .tI32 i :: rest => .ok (i, rest)
  | _ => .error .badToken

def readI64T : List Token → Except PErr (Int × List Token)
  | .tI64 i :: rest => .ok (i, rest)
  | _ => .error .badToken

def readDoubleT : List Token → Except PErr (Int × List Token)
  | .tDouble p :: rest => .ok (p, rest)
  | _ => .error .badToken

def readStringT : List Token → Except PErr (String × List Token)
  | .tString s :: rest => .ok (s, rest)
  | _ => .error .badToken

def readBinaryT : List Token → Except PErr (String × List Token)
  | .tString s :: rest => .ok (s, rest)
  | _ => .error .badToken

def readUuidT : List Token → Except PErr (Nat × List Token)
  | .tUuid u :: rest => .ok (u, rest)
  | _ => .error .badToken


/-! ### The generic skip algorithm (`TProtocolBase.skip`)

Faithful to the `if`/`elif` chain of the source: scalars discard one
primitive read; STRUCT loops over field headers until a STOP tag,
recursively skipping each field; MAP/SET/LIST read their begin marker and
recursively skip the declared number of elements; any other tag raises
`TProtocolException.INVALID_DATA`.

The source recursion is unbounded; the model indexes it by `fuel` so that
it is structurally recursive and evaluates inside `decide`/`rfl`.  The
mutually recursive loops (the STRUCT field loop, the MAP pair loop, the
SET/LIST element loop) are defunctionalised into one `SkipJob` sum. -/

inductive SkipJob where
  | one (t : Nat) : SkipJob
  | fields : SkipJob
  | many (n : Nat) (t : Nat) : SkipJob
  | pairsJ (n : Nat) (kt vt : Nat) : SkipJob

def skipGo : Nat → SkipJob → List Token → Except PErr (List Token)
  | 0, _, _ => .error .fuelOut
  | fuel + 1, .one t, s =>
    if t = TType.BOOL then (readBoolT s).map (·.2)
    else if t = TType.BYTE then (readByteT s).map (·.2)
    else if t = TType.I16 then (readI16T s).map (·.2)
    else if t = TType.I32 then (readI32T s).map (·.2)
    else if t = TType.I64 then (readI64T s).map (·.2)
    else if t = TType.DOUBLE then (readDoubleT s).map (·.2)
    else if t = TType.STRING then (readStringT s).map (·.2)
    else if t = TType.UUID then (readUuidT s).map (·.2)
    else if t = TType.STRUCT then do
      let s ← readStructBeginT s
      let s ← skipGo fuel .fields s
      readStructEndT s
    else if t = TType.MAP then do
      let ((kt, vt, n), s) ← readMapBeginT s
      let s ← skipGo fuel (.pairsJ n kt vt) s
      readMapEndT s
    else if t = TType.SET then do
      let ((et, n), s) ← readSetBeginT s
      let s ← skipGo fuel (.many n et) s
      readSetEndT s
    else if t = TType.LIST then do
      let ((et, n), s) ← readListBeginT s
      let s ← skipGo fuel (.many n et) s
      readListEndT s
    else .error .invalidData
  | fuel + 1, .fields, s => do
    let ((t, _), s) ← readFieldBeginT s
    if t = TType.STOP then .ok s
    else do
      let s ← skipGo fuel (.one t) s
      let s ← readFieldEndT s
      skipGo fuel .fields s
  | _ + 1, .many 0 _, s => .ok s
  | fuel + 1, .many (n + 1) t, s => do
    let s ← skipGo fuel (.one t) s
    skipGo fuel (.many n t) s
  | _ + 1, .pairsJ 0 _ _, s => .ok s
  | fuel + 1, .pairsJ (n + 1) kt vt, s => do
    let s ← skipGo fuel (.one kt) s
    let s ← skipGo fuel (.one vt) s
    skipGo fuel (.pairsJ n kt vt) s

/-- `TProtocolBase.skip(ttype)` on a token stream. -/
def skipT (fuel t : Nat) (s : List Token) : Except PErr (List Token) :=
  skipGo fuel (.one t) s

example : skipT 5 TType.I32 [.tI32 7, .tBool true] = .ok [.tBool true] := rfl

example :
    skipT 9 TType.STRUCT
      [.structBegin, .fieldBegin none TType.BOOL 4, .tBool true, .fieldEnd,
       .fieldBegin none TType.STOP 0, .structEnd, .tI32 1]
      = .ok [.tI32 1] := rfl

/-! ### Decoded values

What the reading side materialises: scalars, containers tagged with the
immutability choice of the `ContainerSpec` (`tuple`/`list`,
`frozenset`/`set`, `TFrozenDict`/`dict`), and structs as their field-name
dictionary (the `fields` dict of the immutable `readStruct` path; the
mutable path performs the same stores via `setattr`).  `DList` for a set
keeps the elements in wire order; it determines the Python set built from
them. -/

mutual
inductive DVal where
  | dBool (b : Bool) : DVal
  | dByte (i : Int) : DVal
  | dDouble (payload : Int) : DVal
  | dI16 (i : Int) : DVal
  | dI32 (i : Int) : DVal
  | dI64 (i : Int) : DVal
  | dString (s : String) : DVal
  | dBinary (s : String) : DVal
  | dUuid (u : Nat) : DVal
  | dList (imm : Bool) (es : DList) : DVal
  | dSet (imm : Bool) (es : DList) : DVal
  | dMap (imm : Bool) (ps : DPairs) : DVal
  | dStruct (fs : DDict) : DVal

inductive DList where
  | nil : DList
  | cons (v : DVal) (rest : DList) : DList

inductive DPairs where
  | nil : DPairs
  | cons (k v : DVal) (rest : DPairs) : DPairs

inductive DDict where
  | nil : DDict
  | cons (name : String) (v : DVal) (rest : DDict) : DDict
end

/-- Python dict assignment `d[name] = v`: replace in place if the key is
present, else append (insertion order preserved). -/
def dinsert : DDict → String → DVal → DDict
  | .nil, n, v => .cons n v .nil
  | .cons m w rest, n, v =>
      if m = n then .cons m v rest else .cons m w (dinsert rest n v)

/-! ### Type-driven readers (`readFieldByTType` and the container readers)

`RJob.val` is `readFieldByTType(ttype, spec)`: the `_ttype_handlers`
dispatch — the `'BINARY'` override first (requiring a STRING tag), then
the `_TTYPE_HANDLERS` table entry for the tag, `None` entries raising
`INVALID_DATA`.  `RJob.strct` is a nested struct read (`readContainerStruct`
delegating to the generated `read`, i.e. `readStruct` with the nested
class's spec).  `RJob.fields` is the `readStruct` field loop; `RJob.elems`
and `RJob.pairsJ` are the `islice`-bounded element loops of
`readContainerList`/`Set`/`Map` (element types taken from the spec, the
wire's declared element types being ignored per the source's TODO).
The loops are defunctionalised into one fuel-indexed function. -/

inductive RJob where
  | val (t : Nat) (fspec : FSpec) : RJob
  | strct (sp : SpecList) : RJob
  | fields (sp : SpecList) (acc : DDict) : RJob
  | elems (n t : Nat) (espec : FSpec) : RJob
  | pairsJ (n : Nat) (kt : Nat) (kspec : FSpec) (vt : Nat) (vspec : FSpec) : RJob

inductive ROut where
  | val (v : DVal) : ROut
  | dict (d : DDict) : ROut
  | elemsOut (l : DList) : ROut
  | pairsOut (p : DPairs) : ROut

def readGo : Nat → RJob → List Token → Except PErr (ROut × List Token)
  | 0, _, _ => .error .fuelOut
  | fuel + 1, .val t fspec, s =>
    match fspec with
    | .binarySpec =>
      if t = TType.STRING then
        (readBinaryT s).map (fun p => (.val (.dBinary p.1), p.2))
      else .error .invalidData
    | _ =>
      if t = TType.BOOL then (readBoolT s).map (fun p => (.val (.dBool p.1), p.2))
      else if t = TType.BYTE then (readByteT s).map (fun p => (.val (.dByte p.1), p.2))
      else if t = TType.DOUBLE then (readDoubleT s).map (fun p => (.val (.dDouble p.1), p.2))
      else if t = TType.I16 then (readI16T s).map (fun p => (.val (.dI16 p.1), p.2))
      else if t = TType.I32 then (readI32T s).map (fun p => (.val (.dI32 p.1), p.2))
      else if t = TType.I64 then (readI64T s).map (fun p => (.val (.dI64 p.1), p.2))
      else if t = TType.STRING then (readStringT s).map (fun p => (.val (.dString p.1), p.2))
      else if t = TType.UUID then (readUuidT s).map (fun p => (.val (.dUuid p.1), p.2))
      else if t = TType.STRUCT then
        match fspec with
        | .structSpec sp => do
          let (o, s) ← readGo fuel (.strct sp) s
          match o with
          | .dict d => .ok (.val (.dStruct d), s)
          | _ => .error .badSpec
        | _ => .error .badSpec
      else if t = TType.MAP then
        match fspec with
        | .mapSpec kt kspec vt vspec imm => do
          let ((_, _, n), s) ← readMapBeginT s
          let (o, s) ← readGo fuel (.pairsJ n kt kspec vt vspec) s
          let s ← readMapEndT s
          match o with
          | .pairsOut ps => .ok (.val (.dMap imm ps), s)
          | _ => .error .badSpec
        | _ => .error .badSpec
      else if t = TType.SET then
        match fspec with
        | .setSpec et espec imm => do
          let ((_, n), s) ← readSetBeginT s
          let (o, s) ← readGo fuel (.elems n et espec) s
          let s ← readSetEndT s
          match o with
          | .elemsOut l => .ok (.val (.dSet imm l), s)
          | _ => .error .badSpec
        | _ => .error .badSpec
      else if t = TType.LIST then
        match fspec with
        | .listSpec et espec imm => do
          let ((_, n), s) ← readListBeginT s
          let (o, s) ← readGo fuel (.elems n et espec) s
          let s ← readListEndT s
          match o with
          | .elemsOut l => .ok (.val (.dList imm l), s)
          | _ => .error .badSpec
        | _ => .error .badSpec
      else .error .invalidData
  | fuel + 1, .strct sp, s => do
    let s ← readStructBeginT s
    let (o, s) ← readGo fuel (.fields sp .nil) s
    let s ← readStructEndT s
    .ok (o, s)
  | fuel + 1, .fields sp acc, s => do
    let ((t, fid), s) ← readFieldBeginT s
    if t = TType.STOP then .ok (.dict acc, s)
    else
      match pyIndex sp fid with
      | some (some e) =>
        if t = e.ftype then do
          let (o, s) ← readGo fuel (.val t e.fspec) s
          match o with
          | .val v => do
            let s ← readFieldEndT s
            readGo fuel (.fields sp (dinsert acc e.fname v)) s
          | _ => .error .badSpec
        else do
          let s ← skipT fuel t s
          let s ← readFieldEndT s
          readGo fuel (.fields sp acc) s
      | _ => do
        let s ← skipT fuel t s
        let s ← readFieldEndT s
        readGo fuel (.fields sp acc) s
  | _ + 1, .elems 0 _ _, s => .ok (.elemsOut .nil, s)
  | fuel + 1, .elems (n + 1) t espec, s => do
    let (o, s) ← readGo fuel (.val t espec) s
    match o with
    | .val v => do
      let (o2, s) ← readGo fuel (.elems n t espec) s
      match o2 with
      | .elemsOut l => .ok (.elemsOut (.cons v l), s)
      | _ => .error .badSpec
    | _ => .error .badSpec
  | _ + 1, .pairsJ 0 _ _ _ _, s => .ok (.pairsOut .nil, s)
  | fuel + 1, .pairsJ (n + 1) kt kspec vt vspec, s => do
    let (ok1, s) ← readGo fuel (.val kt kspec) s
    let (ov1, s) ← readGo fuel (.val vt vspec) s
    let (orest, s) ← readGo fuel (.pairsJ n kt kspec vt vspec) s
    match ok1, ov1, orest with
    | .val k, .val v, .pairsOut ps => .ok (.pairsOut (.cons k v ps), s)
    | _, _, _ => .error .badSpec

/-- `readFieldByTType(ttype, spec)` on a token stream. -/
def readValT (fuel t : Nat) (fspec : FSpec) (s : List Token) :
    Except PErr (DVal × List Token) :=
  match readGo fuel (.val t fspec) s with
  | .ok (.val v, s) => .ok (v, s)
  | .ok _ => .error .badSpec
  | .error e => .error e

/-- `readStruct(obj, thrift_spec)` on a token stream, returning the
dictionary of stored fields (the `fields` dict of the immutable path;
the mutable path performs the same stores via `setattr`). -/
def readStructT (fuel : Nat) (sp : SpecList) (s : List Token) :
    Except PErr (DDict × List Token) :=
  match readGo fuel (.strct sp) s with
  | .ok (.dict d, s) => .ok (d, s)
  | .ok _ => .error .badSpec
  | .error e => .error e

example :
    readStructT 9 (.consNone (.consSome (.mk 1 TType.I32 "x" .scalar) .nil))
      [.structBegin, .fieldBegin none TType.I32 1, .tI32 5, .fieldEnd,
       .fieldBegin none TType.STOP 0, .structEnd]
      = .ok (.cons "x" (.dI32 5) .nil, []) := rfl

/-! ### Well-formedness, conformance, and the reference decoding

`wfV` says an encoded value is self-consistent enough for `skip` to walk
it: container elements carry the element type declared in the container's
begin marker.  `cfV` says a value conforms to a field spec so that the
type-driven reader succeeds: elements carry the element type the *spec*
declares (the reader ignores the wire's declared element types), nested
structs satisfy the per-field condition `cfF` — a field either resolves
in the spec to a matching entry and conforms to it, or merely needs to be
skippable.  `decV` is the reference decoding used to state correctness. -/

mutual
def wfV : TVal → Bool
  | .vBool _ | .vByte _ | .vDouble _ | .vI16 _ | .vI32 _ | .vI64 _
  | .vString _ | .vBinary _ | .vUuid _ => true
  | .vStruct fs => wfF fs
  | .vMap kt vt ps => wfP kt vt ps
  | .vSet et es => wfL et es
  | .vList et es => wfL et es

def wfF : FList → Bool
  | .nil => true
  | .cons _ v rest => wfV v && wfF rest

def wfP : Nat → Nat → PList → Bool
  | _, _, .nil => true
  | kt, vt, .cons k v rest =>
      (wireOf k == kt) && wfV k && (wireOf v == vt) && wfV v && wfP kt vt rest

def wfL : Nat → VList → Bool
  | _, .nil => true
  | et, .cons v rest => (wireOf v == et) && wfV v && wfL et rest
end

mutual
def cfV : FSpec → TVal → Bool
  | .binarySpec, .vBinary _ => true
  | .binarySpec, _ => false
  | _, .vBinary _ => false
  | _, .vBool _ | _, .vByte _ | _, .vDouble _ | _, .vI16 _ | _, .vI32 _
  | _, .vI64 _ | _, .vString _ | _, .vUuid _ => true
  | .listSpec et espec _, .vList _ es => cfL et espec es
  | .setSpec et espec _, .vSet _ es => cfL et espec es
  | .mapSpec kt kspec vt vspec _, .vMap _ _ ps => cfP kt kspec vt vspec ps
  | .structSpec sp, .vStruct fs => cfF sp fs
  | _, _ => false

def cfL : Nat → FSpec → VList → Bool
  | _, _, .nil => true
  | et, espec, .cons v rest =>
      (wireOf v == et) && cfV espec v && cfL et espec rest

def cfP : Nat → FSpec → Nat → FSpec → PList → Bool
  | _, _, _, _, .nil => true
  | kt, kspec, vt, vspec, .cons k v rest =>
      (wireOf k == kt) && cfV kspec k && (wireOf v == vt) && cfV vspec v &&
        cfP kt kspec vt vspec rest

def cfF : SpecList → FList → Bool
  | _, .nil => true
  | sp, .cons fid v rest =>
      (match pyIndex sp fid with
       | some (some e) =>
           if wireOf v == e.ftype then cfV e.fspec v else wfV v
       | _ => wfV v) && cfF sp rest
end

mutual
/-- Reference decoding of a conforming value under a field spec; junk on
non-conforming combinations (which `cfV` rules out). -/
def decV : FSpec → TVal → DVal
  | .binarySpec, .vBinary s => .dBinary s
  | _, .vBool b => .dBool b
  | _, .vByte i => .dByte i
  | _, .vDouble p => .dDouble p
  | _, .vI16 i => .dI16 i
  | _, .vI32 i => .dI32 i
  | _, .vI64 i => .dI64 i
  | _, .vString s => .dString s
  | _, .vUuid u => .dUuid u
  | .listSpec _ espec imm, .vList _ es => .dList imm (decL espec es)
  | .setSpec _ espec imm, .vSet _ es => .dSet imm (decL espec es)
  | .mapSpec _ kspec _ vspec imm, .vMap _ _ ps => .dMap imm (decP kspec vspec ps)
  | .structSpec sp, .vStruct fs => .dStruct (decF sp fs .nil)
  | _, _ => .dBool false

def decL : FSpec → VList → DList
  | _, .nil => .nil
  | espec, .cons v rest => .cons (decV espec v) (decL espec rest)

def decP : FSpec → FSpec → PList → DPairs
  | _, _, .nil => .nil
  | kspec, vspec, .cons k v rest =>
      .cons (decV kspec k) (decV vspec v) (decP kspec vspec rest)

/-- The fields `readStruct` stores: resolve each wire field id with
Python indexing; a resolved, type-matching entry stores the decoded value
under the entry's field name; anything else is skipped. -/
def decF : SpecList → FList → DDict → DDict
  | _, .nil, acc => acc
  | sp, .cons fid v rest, acc =>
      match pyIndex sp fid with
      | some (some e) =>
          if wireOf v == e.ftype then
            decF sp rest (dinsert acc e.fname (decV e.fspec v))
          else decF sp rest acc
      | _ => decF sp rest acc
end

/-! ### Fuel bounds -/

mutual
def sizeV : TVal → Nat
  | .vBool _ | .vByte _ | .vDouble _ | .vI16 _ | .vI32 _ | .vI64 _
  | .vString _ | .vBinary _ | .vUuid _ => 1
  | .vStruct fs => sizeF fs + 2
  | .vMap _ _ ps => sizeP ps + 1
  | .vSet _ es => sizeL es + 1
  | .vList _ es => sizeL es + 1

def sizeF : FList → Nat
  | .nil => 1
  | .cons _ v rest => sizeV v + sizeF rest + 1

def sizeP : PList → Nat
  | .nil => 1
  | .cons k v rest => sizeV k + sizeV v + sizeP rest + 1

def sizeL : VList → Nat
  | .nil => 1
  | .cons v rest => sizeV v + sizeL rest + 1
end

theorem sizeV_pos (v : TVal) : 1 ≤ sizeV v := by
  cases v <;> simp [sizeV]

theorem sizeF_pos (fs : FList) : 1 ≤ sizeF fs := by
  cases fs <;> simp [sizeF]

theorem sizeP_pos (ps : PList) : 1 ≤ sizeP ps := by
  cases ps <;> simp [sizeP]

theorem sizeL_pos (es : VList) : 1 ≤ sizeL es := by
  cases es <;> simp [sizeL]

@[simp] theorem except_bind_ok {ε α β : Type} (a : α) (f : α → Except ε β) :
    (Except.ok a : Except ε α) >>= f = f a := rfl

@[simp] theorem except_map_ok {ε α β : Type} (f : α → β) (a : α) :
    Except.map f (Except.ok a : Except ε α) = Except.ok (f a) := rfl

theorem wireOf_ne_stop (v : TVal) : wireOf v ≠ TType.STOP := by
  cases v <;> simp [wireOf, TType.STOP, TType.BOOL, TType.BYTE, TType.DOUBLE,
    TType.I16, TType.I32, TType.I64, TType.STRING, TType.STRUCT, TType.MAP,
    TType.SET, TType.LIST, TType.UUID]

/-- Skip consumes exactly one encoded value (all four loop shapes at
once, by strong induction on fuel). -/
theorem skip_enc_all (fuel : Nat) :
    (∀ v r, wfV v = true → sizeV v ≤ fuel →
      skipGo fuel (.one (wireOf v)) (encV v ++ r) = .ok r) ∧
    (∀ fs r, wfF fs = true → sizeF fs ≤ fuel →
      skipGo fuel .fields
        (encF fs ++ (Token.fieldBegin none TType.STOP 0 :: r)) = .ok r) ∧
    (∀ kt vt ps r, wfP kt vt ps = true → sizeP ps ≤ fuel →
      skipGo fuel (.pairsJ (plen ps) kt vt) (encP ps ++ r) = .ok r) ∧
    (∀ et es r, wfL et es = true → sizeL es ≤ fuel →
      skipGo fuel (.many (vlen es) et) (encL es ++ r) = .ok r) := by
  induction fuel using Nat.strong_induction_on with
  | _ fuel IH =>
  cases fuel with
  | zero =>
    refine ⟨?_, ?_, ?_, ?_⟩
    · intro v r _ hsz; have := sizeV_pos v; omega
    · intro fs r _ hsz; have := sizeF_pos fs; omega
    · intro kt vt ps r _ hsz; have := sizeP_pos ps; omega
    · intro et es r _ hsz; have := sizeL_pos es; omega
  | succ fuel =>
    refine ⟨?_, ?_, ?_, ?_⟩
    · intro v r hwf hsz
      cases v with
      | vBool b => simp [skipGo, wireOf, encV, readBoolT, TType.BOOL]
      | vByte i =>
        simp [skipGo, wireOf, encV, readByteT, TType.BOOL, TType.BYTE]
      | vDouble p =>
        simp [skipGo, wireOf, encV, readDoubleT, TType.BOOL, TType.BYTE,
          TType.I16, TType.I32, TType.I64, TType.DOUBLE]
      | vI16 i =>
        simp [skipGo, wireOf, encV, readI16T, TType.BOOL, TType.BYTE, TType.I16]
      | vI32 i =>
        simp [skipGo, wireOf, encV, readI32T, TType.BOOL, TType.BYTE, TType.I16,
          TType.I32]
      | vI64 i =>
        simp [skipGo, wireOf, encV, readI64T, TType.BOOL, TType.BYTE, TType.I16,
          TType.I32, TType.I64]
      | vString s =>
        simp [skipGo, wireOf, encV, readStringT, TType.BOOL, TType.BYTE,
          TType.I16, TType.I32, TType.I64, TType.DOUBLE, TType.STRING]
      | vBinary s =>
        simp [skipGo, wireOf, encV, readStringT, TType.BOOL, TType.BYTE,
          TType.I16, TType.I32, TType.I64, TType.DOUBLE, TType.STRING]
      | vUuid u =>
        simp [skipGo, wireOf, encV, readUuidT, TType.BOOL, TType.BYTE,
          TType.I16, TType.I32, TType.I64, TType.DOUBLE, TType.STRING,
          TType.UUID]
      | vStruct fs =>
        simp only [wfV] at hwf
        simp only [sizeV] at hsz
        have h2 := (IH fuel (by omega)).2.1 fs (Token.structEnd :: r) hwf
          (by omega)
        simp [skipGo, wireOf, encV, readStructBeginT, readStructEndT,
          TType.BOOL, TType.BYTE, TType.I16, TType.I32, TType.I64,
          TType.DOUBLE, TType.STRING, TType.UUID, TType.STRUCT, h2]
      | vMap kt vt ps =>
        simp only [wfV] at hwf
        simp only [sizeV] at hsz
        have h2 := (IH fuel (by omega)).2.2.1 kt vt ps (Token.mapEnd :: r) hwf
          (by omega)
        simp [skipGo, wireOf, encV, readMapBeginT, readMapEndT,
          TType.BOOL, TType.BYTE, TType.I16, TType.I32, TType.I64,
          TType.DOUBLE, TType.STRING, TType.UUID, TType.STRUCT, TType.MAP, h2]
      | vSet et es =>
        simp only [wfV] at hwf
        simp only [sizeV] at hsz
        have h2 := (IH fuel (by omega)).2.2.2 et es (Token.setEnd :: r) hwf
          (by omega)
        simp [skipGo, wireOf, encV, readSetBeginT, readSetEndT,
          TType.BOOL, TType.BYTE, TType.I16, TType.I32, TType.I64,
          TType.DOUBLE, TType.STRING, TType.UUID, TType.STRUCT, TType.MAP,
          TType.SET, h2]
      | vList et es =>
        simp only [wfV] at hwf
        simp only [sizeV] at hsz
        have h2 := (IH fuel (by omega)).2.2.2 et es (Token.listEnd :: r) hwf
          (by omega)
        simp [skipGo, wireOf, encV, readListBeginT, readListEndT,
          TType.BOOL, TType.BYTE, TType.I16, TType.I32, TType.I64,
          TType.DOUBLE, TType.STRING, TType.UUID, TType.STRUCT, TType.MAP,
          TType.SET, TType.LIST, h2]
    · intro fs r hwf hsz
      cases fs with
      | nil => simp [encF, skipGo, readFieldBeginT, TType.STOP]
      | cons fid v rest =>
        simp only [wfF, Bool.and_eq_true] at hwf
        obtain ⟨hwfv, hwfr⟩ := hwf
        simp only [sizeF] at hsz
        have h1 := (IH fuel (by omega)).1 v
          (Token.fieldEnd :: (encF rest ++ (Token.fieldBegin none TType.STOP 0 :: r)))
          hwfv (by omega)
        have h2 := (IH fuel (by omega)).2.1 rest r hwfr (by omega)
        have hne := wireOf_ne_stop v
        simp [encF, skipGo, readFieldBeginT, readFieldEndT, hne, h1, h2,
          skipT]
    · intro kt vt ps r hwf hsz
      cases ps with
      | nil => simp [encP, plen, skipGo]
      | cons k v rest =>
        simp only [wfP, Bool.and_eq_true, beq_iff_eq] at hwf
        obtain ⟨⟨⟨⟨hk, hwfk⟩, hv⟩, hwfv⟩, hwfr⟩ := hwf
        simp only [sizeP] at hsz
        subst hk; subst hv
        have h1 := (IH fuel (by omega)).1 k
          (encV v ++ (encP rest ++ r)) hwfk (by omega)
        have h2 := (IH fuel (by omega)).1 v (encP rest ++ r) hwfv (by omega)
        have h3 := (IH fuel (by omega)).2.2.1 (wireOf k) (wireOf v) rest r
          hwfr (by omega)
        simp [encP, plen, skipGo, h1, h2, h3]
    · intro et es r hwf hsz
      cases es with
      | nil => simp [encL, vlen, skipGo]
      | cons v rest =>
        simp only [wfL, Bool.and_eq_true, beq_iff_eq] at hwf
        obtain ⟨⟨hv, hwfv⟩, hwfr⟩ := hwf
        simp only [sizeL] at hsz
        subst hv
        have h1 := (IH fuel (by omega)).1 v (encL rest ++ r) hwfv (by omega)
        have h3 := (IH fuel (by omega)).2.2.2 (wireOf v) rest r hwfr (by omega)
        simp [encL, vlen, skipGo, h1, h3]

attribute [simp] TType.STOP TType.VOID TType.BOOL TType.BYTE TType.DOUBLE
  TType.I16 TType.I32 TType.I64 TType.STRING TType.STRUCT TType.MAP
  TType.SET TType.LIST TType.UUID TType.UTF16

attribute [simp] readStructBeginT readStructEndT readFieldBeginT readFieldEndT
  readMapBeginT readMapEndT readListBeginT readListEndT readSetBeginT
  readSetEndT readBoolT readByteT readI16T readI32T readI64T readDoubleT
  readStringT readBinaryT readUuidT


set_option maxHeartbeats 2000000 in
/-- The type-driven readers decode exactly what was encoded (all loop
shapes at once, by strong induction on fuel): a conforming value yields
its reference decoding, and the `readStruct` field loop yields exactly
the `decF` store sequence — matching fields decoded and stored, unknown
or mismatched fields skipped. -/
theorem read_enc_all (fuel : Nat) :
    (∀ fspec v r, cfV fspec v = true → sizeV v ≤ fuel →
      readGo fuel (.val (wireOf v) fspec) (encV v ++ r)
        = .ok (.val (decV fspec v), r)) ∧
    (∀ sp fs r, cfF sp fs = true → sizeF fs + 1 ≤ fuel →
      readGo fuel (.strct sp) (encV (.vStruct fs) ++ r)
        = .ok (.dict (decF sp fs .nil), r)) ∧
    (∀ sp fs acc r, cfF sp fs = true → sizeF fs ≤ fuel →
      readGo fuel (.fields sp acc)
          (encF fs ++ (Token.fieldBegin none TType.STOP 0 :: r))
        = .ok (.dict (decF sp fs acc), r)) ∧
    (∀ et espec es r, cfL et espec es = true → sizeL es ≤ fuel →
      readGo fuel (.elems (vlen es) et espec) (encL es ++ r)
        = .ok (.elemsOut (decL espec es), r)) ∧
    (∀ kt kspec vt vspec ps r, cfP kt kspec vt vspec ps = true →
        sizeP ps ≤ fuel →
      readGo fuel (.pairsJ (plen ps) kt kspec vt vspec) (encP ps ++ r)
        = .ok (.pairsOut (decP kspec vspec ps), r)) := by
  induction fuel using Nat.strong_induction_on with
  | _ fuel IH =>
  cases fuel with
  | zero =>
    refine ⟨?_, ?_, ?_, ?_, ?_⟩
    · intro fspec v r _ hsz; have := sizeV_pos v; omega
    · intro sp fs r _ hsz; omega
    · intro sp fs acc r _ hsz; have := sizeF_pos fs; omega
    · intro et espec es r _ hsz; have := sizeL_pos es; omega
    · intro kt kspec vt vspec ps r _ hsz; have := sizeP_pos ps; omega
  | succ fuel =>
    refine ⟨?_, ?_, ?_, ?_, ?_⟩
    · intro fspec v r hcf hsz
      cases v with
      | vBool b =>
        clear IH; cases fspec <;> simp_all [cfV, readGo, wireOf, encV, decV]
      | vByte i =>
        clear IH; cases fspec <;> simp_all [cfV, readGo, wireOf, encV, decV]
      | vDouble p =>
        clear IH; cases fspec <;> simp_all [cfV, readGo, wireOf, encV, decV]
      | vI16 i =>
        clear IH; cases fspec <;> simp_all [cfV, readGo, wireOf, encV, decV]
      | vI32 i =>
        clear IH; cases fspec <;> simp_all [cfV, readGo, wireOf, encV, decV]
      | vI64 i =>
        clear IH; cases fspec <;> simp_all [cfV, readGo, wireOf, encV, decV]
      | vString s =>
        clear IH; cases fspec <;> simp_all [cfV, readGo, wireOf, encV, decV]
      | vBinary s =>
        clear IH; cases fspec <;> simp_all [cfV, readGo, wireOf, encV, decV]
      | vUuid u =>
        clear IH; cases fspec <;> simp_all [cfV, readGo, wireOf, encV, decV]
      | vStruct fs =>
        cases fspec with
        | structSpec sp =>
          simp only [cfV] at hcf
          simp only [sizeV] at hsz
          have h2 := (IH fuel (by omega)).2.1 sp fs r hcf (by omega)
          simp [readGo, wireOf, decV, h2]
        | scalar => clear IH; simp_all [cfV]
        | binarySpec => clear IH; simp_all [cfV]
        | listSpec et9 es9 imm9 => clear IH; simp_all [cfV]
        | setSpec et9 es9 imm9 => clear IH; simp_all [cfV]
        | mapSpec kt9 ks9 vt9 vs9 imm9 => clear IH; simp_all [cfV]
      | vMap kt vt ps =>
        cases fspec with
        | mapSpec kt2 ks vt2 vs imm =>
          simp only [cfV] at hcf
          simp only [sizeV] at hsz
          have h2 := (IH fuel (by omega)).2.2.2.2 kt2 ks vt2 vs ps
            (Token.mapEnd :: r) hcf (by omega)
          simp [readGo, wireOf, encV, decV, h2]
        | scalar => clear IH; simp_all [cfV]
        | binarySpec => clear IH; simp_all [cfV]
        | listSpec et9 es9 imm9 => clear IH; simp_all [cfV]
        | setSpec et9 es9 imm9 => clear IH; simp_all [cfV]
        | structSpec sp9 => clear IH; simp_all [cfV]
      | vSet et es =>
        cases fspec with
        | setSpec et2 espec imm =>
          simp only [cfV] at hcf
          simp only [sizeV] at hsz
          have h2 := (IH fuel (by omega)).2.2.2.1 et2 espec es
            (Token.setEnd :: r) hcf (by omega)
          simp [readGo, wireOf, encV, decV, h2]
        | scalar => clear IH; simp_all [cfV]
        | binarySpec => clear IH; simp_all [cfV]
        | listSpec et9 es9 imm9 => clear IH; simp_all [cfV]
        | mapSpec kt9 ks9 vt9 vs9 imm9 => clear IH; simp_all [cfV]
        | structSpec sp9 => clear IH; simp_all [cfV]
      | vList et es =>
        cases fspec with
        | listSpec et2 espec imm =>
          simp only [cfV] at hcf
          simp only [sizeV] at hsz
          have h2 := (IH fuel (by omega)).2.2.2.1 et2 espec es
            (Token.listEnd :: r) hcf (by omega)
          simp [readGo, wireOf, encV, decV, h2]
        | scalar => clear IH; simp_all [cfV]
        | binarySpec => clear IH; simp_all [cfV]
        | setSpec et9 es9 imm9 => clear IH; simp_all [cfV]
        | mapSpec kt9 ks9 vt9 vs9 imm9 => clear IH; simp_all [cfV]
        | structSpec sp9 => clear IH; simp_all [cfV]
    · intro sp fs r hcf hsz
      have h3 := (IH fuel (by omega)).2.2.1 sp fs .nil (Token.structEnd :: r)
        hcf (by omega)
      clear IH
      simp only [TType.STOP] at h3
      simp [readGo, encV, h3]
    · intro sp fs acc r hcf hsz
      cases fs with
      | nil => clear IH; simp [encF, readGo, decF]
      | cons fid v rest =>
        simp only [cfF, Bool.and_eq_true] at hcf
        obtain ⟨hfield, hrest⟩ := hcf
        simp only [sizeF] at hsz
        cases hpy : pyIndex sp fid with
        | none =>
          rw [hpy] at hfield
          have hskip := (skip_enc_all fuel).1 v
            (Token.fieldEnd :: (encF rest ++ (Token.fieldBegin none TType.STOP 0 :: r)))
            hfield (by omega)
          have h3 := (IH fuel (by omega)).2.2.1 sp rest acc r hrest (by omega)
          have hne := wireOf_ne_stop v
          clear IH
          simp only [TType.STOP] at hskip h3 hne
          simp [encF, readGo, hpy, hne, skipT, hskip, h3, decF]
        | some oe =>
          cases oe with
          | none =>
            rw [hpy] at hfield
            have hskip := (skip_enc_all fuel).1 v
              (Token.fieldEnd :: (encF rest ++ (Token.fieldBegin none TType.STOP 0 :: r)))
              hfield (by omega)
            have h3 := (IH fuel (by omega)).2.2.1 sp rest acc r hrest (by omega)
            have hne := wireOf_ne_stop v
            clear IH
            simp only [TType.STOP] at hskip h3 hne
            simp [encF, readGo, hpy, hne, skipT, hskip, h3, decF]
          | some e =>
            rw [hpy] at hfield
            have hne := wireOf_ne_stop v
            by_cases hty : wireOf v = e.ftype
            · simp only [hty, beq_self_eq_true, if_true] at hfield
              have h1 := (IH fuel (by omega)).1 e.fspec v
                (Token.fieldEnd :: (encF rest ++ (Token.fieldBegin none TType.STOP 0 :: r)))
                hfield (by omega)
              have h3 := (IH fuel (by omega)).2.2.1 sp rest
                (dinsert acc e.fname (decV e.fspec v)) r hrest (by omega)
              clear IH
              simp only [TType.STOP] at h1 h3 hne
              rw [hty] at h1 hne
              simp [encF, readGo, hpy, hne, hty, h1, h3, decF]
            · simp only [beq_iff_eq, hty, if_false] at hfield
              have hskip := (skip_enc_all fuel).1 v
                (Token.fieldEnd :: (encF rest ++ (Token.fieldBegin none TType.STOP 0 :: r)))
                hfield (by omega)
              have h3 := (IH fuel (by omega)).2.2.1 sp rest acc r hrest (by omega)
              clear IH
              simp only [TType.STOP] at hskip h3 hne
              simp [encF, readGo, hpy, hne, hty, skipT, hskip, h3, decF]
    · intro et espec es r hcf hsz
      cases es with
      | nil => clear IH; simp [encL, vlen, readGo, decL]
      | cons v rest =>
        simp only [cfL, Bool.and_eq_true, beq_iff_eq] at hcf
        obtain ⟨⟨hty, hcfv⟩, hcfr⟩ := hcf
        simp only [sizeL] at hsz
        subst hty
        have h1 := (IH fuel (by omega)).1 espec v (encL rest ++ r) hcfv
          (by omega)
        have h4 := (IH fuel (by omega)).2.2.2.1 (wireOf v) espec rest r hcfr
          (by omega)
        clear IH
        simp [encL, vlen, readGo, h1, h4, decL]
    · intro kt kspec vt vspec ps r hcf hsz
      cases ps with
      | nil => clear IH; simp [encP, plen, readGo, decP]
      | cons k v rest =>
        simp only [cfP, Bool.and_eq_true, beq_iff_eq] at hcf
        obtain ⟨⟨⟨⟨hkt, hcfk⟩, hvt⟩, hcfv⟩, hcfr⟩ := hcf
        simp only [sizeP] at hsz
        subst hkt; subst hvt
        have h1 := (IH fuel (by omega)).1 kspec k
          (encV v ++ (encP rest ++ r)) hcfk (by omega)
        have h2 := (IH fuel (by omega)).1 vspec v (encP rest ++ r) hcfv
          (by omega)
        have h5 := (IH fuel (by omega)).2.2.2.2 (wireOf k) kspec (wireOf v)
          vspec rest r hcfr (by omega)
        clear IH
        simp [encP, plen, readGo, h1, h2, h5, decP]

/-- `readStruct` on the encoding of a struct-shaped wire value recovers
exactly the `decF` reference store sequence. -/
theorem readStructT_enc (fuel : Nat) (sp : SpecList) (fs : FList)
    (r : List Token) (hcf : cfF sp fs = true) (hsz : sizeF fs + 1 ≤ fuel) :
    readStructT fuel sp (encV (.vStruct fs) ++ r) = .ok (decF sp fs .nil, r) := by
  have h := (read_enc_all fuel).2.1 sp fs r hcf hsz
  simp [readStructT, h]

theorem sget_ge : ∀ (sp : SpecList) (n : Nat), slen sp ≤ n → sget sp n = none
  | .nil, _, _ => by simp [sget]
  | .consNone rest, n, h => by
    cases n with
    | zero => simp [slen] at h
    | succ n =>
      simp only [sget]
      exact sget_ge rest n (by simp [slen] at h; omega)
  | .consSome e rest, n, h => by
    cases n with
    | zero => simp [slen] at h
    | succ n =>
      simp only [sget]
      exact sget_ge rest n (by simp [slen] at h; omega)

/-- C1: during struct decode, `readStruct` loops over field headers until
a STOP tag; a field whose id fails to resolve in the `thrift_spec` (or
resolves to a `None` entry), or whose declared wire type differs from the
resolved entry's expected type, is skipped with the generic skip
algorithm, while every field whose id and wire type match is decoded and
stored under the entry's field name — so the final store sequence is
exactly `decF`: all known fields recovered, regardless of interleaved
unknown or mismatched fields. -/
theorem c1_readStruct_recovers_known_fields (fuel : Nat) (sp : SpecList)
    (fs : FList) (r : List Token) (hcf : cfF sp fs = true)
    (hsz : sizeF fs + 1 ≤ fuel) :
    readStructT fuel sp (encV (.vStruct fs) ++ r) = .ok (decF sp fs .nil, r) :=
  readStructT_enc fuel sp fs r hcf hsz

def c1DemoSpec : SpecList :=
  .consNone
    (.consSome (.mk 1 TType.I32 "x" .scalar)
      (.consSome (.mk 2 TType.STRING "y" .scalar) .nil))

def c1DemoFields : FList :=
  .cons 5 (.vBool true)
    (.cons 1 (.vI32 42)
      (.cons 2 (.vI64 9)
        (.cons 0 (.vString "s")
          (.cons 2 (.vString "ok")
            (.cons 7 (.vStruct (.cons 1 (.vBool false) .nil)) .nil)))))

theorem c1_witness :
    cfF c1DemoSpec c1DemoFields = true ∧
      readStructT 40 c1DemoSpec (encV (.vStruct c1DemoFields) ++ []) =
        .ok (.cons "x" (.dI32 42) (.cons "y" (.dString "ok") .nil), []) :=
  ⟨by decide,
    c1_readStruct_recovers_known_fields 40 c1DemoSpec c1DemoFields []
      (by decide) (by decide)⟩

/-- C6: `skip(wireType)` consumes exactly one encoded value for every
value-bearing WireType (BOOL, BYTE, DOUBLE, I16, I32, I64,
STRING/BINARY, UUID, and — by recursive descent consuming exactly the
declared number of fields/elements — STRUCT, MAP, SET, LIST), and for a
tag outside that set it fails with `INVALID_DATA`. -/
theorem c6_skip_consumes_one_value :
    (∀ fuel v r, wfV v = true → sizeV v ≤ fuel →
      skipT fuel (wireOf v) (encV v ++ r) = .ok r) ∧
    (∀ fuel t s,
      t ∉ ([TType.BOOL, TType.BYTE, TType.I16, TType.I32, TType.I64,
            TType.DOUBLE, TType.STRING, TType.UUID, TType.STRUCT,
            TType.MAP, TType.SET, TType.LIST] : List Nat) →
      skipT (fuel + 1) t s = .error .invalidData) := by
  constructor
  · intro fuel v r hwf hsz
    exact (skip_enc_all fuel).1 v r hwf hsz
  · intro fuel t s h
    simp only [List.mem_cons, List.not_mem_nil, or_false, not_or] at h
    obtain ⟨h1, h2, h3, h4, h5, h6, h7, h8, h9, h10, h11, h12⟩ := h
    simp only [TType.BOOL, TType.BYTE, TType.I16, TType.I32, TType.I64,
      TType.DOUBLE, TType.STRING, TType.UUID, TType.STRUCT, TType.MAP,
      TType.SET, TType.LIST] at h1 h2 h3 h4 h5 h6 h7 h8 h9 h10 h11 h12
    simp [skipT, skipGo, h1, h2, h3, h4, h5, h6, h7, h8, h9, h10, h11, h12]

def c6DemoVal : TVal :=
  .vMap TType.I32 TType.STRUCT
    (.cons (.vI32 1) (.vStruct (.cons 9 (.vBool true) .nil)) .nil)

theorem c6_witness :
    (wfV c6DemoVal = true ∧
      skipT 20 (wireOf c6DemoVal) (encV c6DemoVal ++ [.tBool true]) =
        .ok [.tBool true]) ∧
    skipT 1 TType.UTF16 [.tBool true] = .error .invalidData :=
  ⟨⟨by decide,
      c6_skip_consumes_one_value.1 20 c6DemoVal [.tBool true] (by decide)
        (by decide)⟩,
    c6_skip_consumes_one_value.2 0 TType.UTF16 [.tBool true] (by decide)⟩

def c10DemoSpec : SpecList :=
  .consSome (.mk 1 TType.BOOL "x" .scalar) .nil

/-- C10 counterexample: the claim's closing clause — "only field ids
`>= n` raise the internal index error and are skipped" — is false: with a
spec of length `n = 1`, the wire field id `-2 < 1` also raises the index
error (`pyIndex` is `none`) and the field is skipped, leaving the store
dictionary empty. -/
theorem c10_counterexample :
    pyIndex c10DemoSpec (-2) = none ∧
      ((-2 : Int) < (slen c10DemoSpec : Int)) ∧
      readStructT 10 c10DemoSpec
          (encV (.vStruct (.cons (-2) (.vBool true) .nil)) ++ []) =
        .ok (.nil, []) :=
  ⟨rfl, by decide, rfl⟩

/-- C10 (amended): during struct decode with a spec of length `n`, a
field header with negative id `-n <= fid < 0` is not treated as unknown:
`thrift_spec[fid]` resolves to the entry at position `n + fid` (Python
negative indexing), and if that aliased entry's wire type matches, the
value is read and stored under that entry's field name; the internal
index error (and hence the skip) occurs exactly for `fid >= n` or
`fid < -n`. -/
theorem c10_negative_fid_aliases :
    (∀ (sp : SpecList) (fid : Int), -(slen sp : Int) ≤ fid → fid < 0 →
      pyIndex sp fid = sget sp ((slen sp : Int) + fid).toNat) ∧
    (∀ (sp : SpecList) (fid : Int),
      ((slen sp : Int) ≤ fid ∨ fid < -(slen sp : Int)) →
      pyIndex sp fid = none) ∧
    (∀ (fuel : Nat) (sp : SpecList) (fid : Int) (v : TVal) (r : List Token)
        (e : FieldE), -(slen sp : Int) ≤ fid → fid < 0 →
      sget sp ((slen sp : Int) + fid).toNat = some (some e) →
      wireOf v = e.ftype → cfV e.fspec v = true → sizeV v + 3 ≤ fuel →
      readStructT fuel sp (encV (.vStruct (.cons fid v .nil)) ++ r) =
        .ok (.cons e.fname (decV e.fspec v) .nil, r)) := by
  refine ⟨?_, ?_, ?_⟩
  · intro sp fid h1 h2
    simp only [pyIndex]
    rw [if_neg (by omega), if_pos (by omega)]
  · intro sp fid h
    rcases h with h | h
    · simp only [pyIndex]
      rw [if_pos (by omega)]
      exact sget_ge sp _ (by omega)
    · simp only [pyIndex]
      rw [if_neg (by omega), if_neg (by omega)]
  · intro fuel sp fid v r e h1 h2 hsget hty hcf hsz
    have hpy : pyIndex sp fid = some (some e) := by
      simp only [pyIndex]
      rw [if_neg (by omega), if_pos (by omega)]
      exact hsget
    have hcff : cfF sp (.cons fid v .nil) = true := by
      simp [cfF, hpy, hty, hcf]
    have h := readStructT_enc fuel sp (.cons fid v .nil) r hcff
      (by simp [sizeF]; omega)
    simpa [decF, hpy, hty, dinsert] using h

def c10DemoSpec2 : SpecList :=
  .consSome (.mk 0 TType.I32 "a" .scalar)
    (.consSome (.mk 1 TType.STRING "b" .scalar) .nil)

theorem c10_witness :
    readStructT 10 c10DemoSpec2
        (encV (.vStruct (.cons (-1) (.vString "z") .nil)) ++ []) =
      .ok (.cons "b" (.dString "z") .nil, []) :=
  c10_negative_fid_aliases.2.2 10 c10DemoSpec2 (-1) (.vString "z") []
    (.mk 1 TType.STRING "b" .scalar) (by decide) (by decide) rfl rfl
    (by decide) (by decide)

/-! ### Write-side values (`writeStruct` and the type-driven writers)

A Python struct instance for writing: named attributes whose value is
either `None` (the unset sentinel, never written) or a value.  `WObj`
models the attribute table consulted by `getattr(obj, fname)`;
`wlookup` returning `none` models a missing attribute
(`AttributeError`). -/

mutual
inductive WVal where
  | wBool (b : Bool) : WVal
  | wByte (i : Int) : WVal
  | wDouble (payload : Int) : WVal
  | wI16 (i : Int) : WVal
  | wI32 (i : Int) : WVal
  | wI64 (i : Int) : WVal
  | wString (s : String) : WVal
  | wBinary (s : String) : WVal
  | wUuid (u : Nat) : WVal
  | wStruct (o : WObj) : WVal
  | wList (es : WList) : WVal
  | wSet (es : WList) : WVal
  | wMap (ps : WPairs) : WVal

inductive WObj where
  | nil : WObj
  | consSome (name : String) (v : WVal) (rest : WObj) : WObj
  | consNone (name : String) (rest : WObj) : WObj

inductive WList where
  | nil : WList
  | cons (v : WVal) (rest : WList) : WList

inductive WPairs where
  | nil : WPairs
  | cons (k v : WVal) (rest : WPairs) : WPairs
end

/-- `getattr(obj, name)`: `none` = missing attribute, `some none` = the
attribute is `None` (unset), `some (some v)` = a present value. -/
def wlookup : WObj → String → Option (Option WVal)
  | .nil, _ => none
  | .consSome m v rest, n => if m = n then some (some v) else wlookup rest n
  | .consNone m rest, n => if m = n then some none else wlookup rest n

def wllen : WList → Nat
  | .nil => 0
  | .cons _ rest => wllen rest + 1

def wplen : WPairs → Nat
  | .nil => 0
  | .cons _ _ rest => wplen rest + 1

/-- Writer half of `_ttype_handlers(ttype, spec)`: the `'BINARY'`
override demands a STRING tag and yields `writeBinary`; otherwise the
`_TTYPE_HANDLERS` table row for the tag (with its is-container flag);
a `None` table entry makes `_write_by_ttype` raise `INVALID_DATA`. -/
inductive WKind where
  | wrBool | wrByte | wrDouble | wrI16 | wrI32 | wrI64
  | wrString | wrBinary | wrUuid | wrStruct | wrMap | wrSet | wrList

def writerHandler (t : Nat) (fspec : FSpec) : Except PErr (WKind × Bool) :=
  match fspec with
  | .binarySpec =>
    if t = TType.STRING then .ok (.wrBinary, false) else .error .invalidData
  | _ =>
    if t = TType.BOOL then .ok (.wrBool, false)
    else if t = TType.BYTE then .ok (.wrByte, false)
    else if t = TType.DOUBLE then .ok (.wrDouble, false)
    else if t = TType.I16 then .ok (.wrI16, false)
    else if t = TType.I32 then .ok (.wrI32, false)
    else if t = TType.I64 then .ok (.wrI64, false)
    else if t = TType.STRING then .ok (.wrString, false)
    else if t = TType.STRUCT then .ok (.wrStruct, true)
    else if t = TType.MAP then .ok (.wrMap, true)
    else if t = TType.SET then .ok (.wrSet, true)
    else if t = TType.LIST then .ok (.wrList, true)
    else if t = TType.UUID then .ok (.wrUuid, false)
    else .error .invalidData

/-! Writers thread the list of tokens emitted so far (the bytes already
written to the transport).  `WJob.val` is `writeFieldByTType`;
`WJob.strct` is `writeStruct` (also reached for a nested struct value via
`writeContainerStruct` → the generated `write` → `writeStruct` with the
nested class's spec); `WJob.fields` is the `writeStruct` field loop;
`WJob.elems`/`WJob.pairsJ` are the `_write_by_ttype` loops of
`writeContainerList`/`Set`/`Map`.  A value whose shape does not fit the
selected writer is `badSpec` (in Python the concrete writer would fail
downstream on the foreign type). -/

inductive WJob where
  | val (t : Nat) (fspec : FSpec) (v : WVal) : WJob
  | strct (o : WObj) (sp : SpecList) : WJob
  | fields (o : WObj) (sp : SpecList) : WJob
  | elems (et : Nat) (espec : FSpec) (es : WList) : WJob
  | pairsJ (kt : Nat) (kspec : FSpec) (vt : Nat) (vspec : FSpec) (ps : WPairs) : WJob

def writeGo : Nat → WJob → List Token → Except PErr (List Token)
  | 0, _, _ => .error .fuelOut
  | fuel + 1, .val t fspec v, acc => do
    let (k, _) ← writerHandler t fspec
    match k, v with
    | .wrBool, .wBool b => .ok (acc ++ [.tBool b])
    | .wrByte, .wByte i => .ok (acc ++ [.tByte i])
    | .wrDouble, .wDouble p => .ok (acc ++ [.tDouble p])
    | .wrI16, .wI16 i => .ok (acc ++ [.tI16 i])
    | .wrI32, .wI32 i => .ok (acc ++ [.tI32 i])
    | .wrI64, .wI64 i => .ok (acc ++ [.tI64 i])
    | .wrString, .wString s => .ok (acc ++ [.tString s])
    | .wrBinary, .wBinary s => .ok (acc ++ [.tString s])
    | .wrUuid, .wUuid u => .ok (acc ++ [.tUuid u])
    | .wrStruct, .wStruct o =>
      match fspec with
      | .structSpec sp => writeGo fuel (.strct o sp) acc
      | _ => .error .badSpec
    | .wrList, .wList es =>
      match fspec with
      | .listSpec et espec _ => do
        let acc ← writeGo fuel (.elems et espec es) (acc ++ [.listBegin et (wllen es)])
        .ok (acc ++ [.listEnd])
      | _ => .error .badSpec
    | .wrSet, .wSet es =>
      match fspec with
      | .setSpec et espec _ => do
        let acc ← writeGo fuel (.elems et espec es) (acc ++ [.setBegin et (wllen es)])
        .ok (acc ++ [.setEnd])
      | _ => .error .badSpec
    | .wrMap, .wMap ps =>
      match fspec with
      | .mapSpec kt kspec vt vspec _ => do
        let acc ← writeGo fuel (.pairsJ kt kspec vt vspec ps)
          (acc ++ [.mapBegin kt vt (wplen ps)])
        .ok (acc ++ [.mapEnd])
      | _ => .error .badSpec
    | _, _ => .error .badSpec
  | fuel + 1, .strct o sp, acc => do
    let acc ← writeGo fuel (.fields o sp) (acc ++ [.structBegin])
    .ok (acc ++ [.fieldBegin none TType.STOP 0, .structEnd])
  | _ + 1, .fields _ .nil, acc => .ok acc
  | fuel + 1, .fields o (.consNone rest), acc => writeGo fuel (.fields o rest) acc
  | fuel + 1, .fields o (.consSome e rest), acc =>
    match wlookup o e.fname with
    | none => .error .badSpec
    | some none => writeGo fuel (.fields o rest) acc
    | some (some v) => do
      let acc ← writeGo fuel (.val e.ftype e.fspec v)
        (acc ++ [.fieldBegin (some e.fname) e.ftype e.ffid])
      writeGo fuel (.fields o rest) (acc ++ [.fieldEnd])
  | _ + 1, .elems _ _ .nil, acc => .ok acc
  | fuel + 1, .elems et espec (.cons v rest), acc => do
    let acc ← writeGo fuel (.val et espec v) acc
    writeGo fuel (.elems et espec rest) acc
  | _ + 1, .pairsJ _ _ _ _ .nil, acc => .ok acc
  | fuel + 1, .pairsJ kt kspec vt vspec (.cons k v rest), acc => do
    let acc ← writeGo fuel (.val kt kspec k) acc
    let acc ← writeGo fuel (.val vt vspec v) acc
    writeGo fuel (.pairsJ kt kspec vt vspec rest) acc

/-- `writeStruct(obj, thrift_spec)` on a token transport holding `acc`. -/
def writeStructT (fuel : Nat) (o : WObj) (sp : SpecList) (acc : List Token) :
    Except PErr (List Token) :=
  writeGo fuel (.strct o sp) acc

example :
    writeStructT 9
      (.consSome "x" (.wI32 5) (.consNone "y" .nil))
      (.consNone (.consSome (.mk 1 TType.I32 "x" .scalar)
        (.consSome (.mk 2 TType.I64 "y" .scalar) .nil)))
      []
    = .ok [.structBegin, .fieldBegin (some "x") TType.I32 1, .tI32 5,
           .fieldEnd, .fieldBegin none TType.STOP 0, .structEnd] := rfl

@[simp] theorem except_bind_error {ε α β : Type} (e : ε) (f : α → Except ε β) :
    (Except.error e : Except ε α) >>= f = .error e := rfl

@[simp] theorem except_map_error {ε α β : Type} (f : α → β) (e : ε) :
    Except.map f (Except.error e : Except ε α) = .error e := rfl

/-- The claim-side description of `writeStruct`'s field section: walk the
spec in declaration order; `None` entries and entries whose attribute is
the unset sentinel contribute nothing; every present field contributes a
field header (name, wire type, field id), the type-dispatched encoded
value, and a field-end marker. -/
def fieldSeq : Nat → WObj → SpecList → Except PErr (List Token)
  | 0, _, _ => .error .fuelOut
  | _ + 1, _, .nil => .ok []
  | fuel + 1, o, .consNone rest => fieldSeq fuel o rest
  | fuel + 1, o, .consSome e rest =>
    match wlookup o e.fname with
    | none => .error .badSpec
    | some none => fieldSeq fuel o rest
    | some (some v) => do
      let body ← writeGo fuel (.val e.ftype e.fspec v) []
      let tail ← fieldSeq fuel o rest
      .ok (.fieldBegin (some e.fname) e.ftype e.ffid :: (body ++ (.fieldEnd :: tail)))

set_option maxHeartbeats 2000000 in
/-- The writers only ever append: emitting onto a transport already
holding `acc` yields `acc ++` whatever the same write emits on an empty
transport. -/
theorem writeGo_append (fuel : Nat) : ∀ (job : WJob) (acc : List Token),
    writeGo fuel job acc = (writeGo fuel job []).map (fun l => acc ++ l) := by
  induction fuel using Nat.strong_induction_on with
  | _ fuel IH =>
  cases fuel with
  | zero => intro job acc; simp [writeGo]
  | succ fuel =>
    have IHf := IH fuel (by omega)
    intro job acc
    cases job with
    | val t fspec v =>
      cases hwh : writerHandler t fspec with
      | error e => simp [writeGo, hwh]
      | ok kb =>
        obtain ⟨k, b⟩ := kb
        cases k <;> cases v <;>
          simp [writeGo, hwh] <;>
          cases fspec <;>
          simp [writeGo, hwh]
        case wrStruct.wStruct.structSpec o sp =>
          exact IHf (.strct o sp) acc
        case wrList.wList.listSpec es et espec imm =>
          rw [IHf (.elems et espec es) (acc ++ [Token.listBegin et (wllen es)]),
            IHf (.elems et espec es) [Token.listBegin et (wllen es)]]
          cases h : writeGo fuel (.elems et espec es) [] <;> simp
        case wrSet.wSet.setSpec es et espec imm =>
          rw [IHf (.elems et espec es) (acc ++ [Token.setBegin et (wllen es)]),
            IHf (.elems et espec es) [Token.setBegin et (wllen es)]]
          cases h : writeGo fuel (.elems et espec es) [] <;> simp
        case wrMap.wMap.mapSpec ps kt kspec vt vspec imm =>
          rw [IHf (.pairsJ kt kspec vt vspec ps)
              (acc ++ [Token.mapBegin kt vt (wplen ps)]),
            IHf (.pairsJ kt kspec vt vspec ps) [Token.mapBegin kt vt (wplen ps)]]
          cases h : writeGo fuel (.pairsJ kt kspec vt vspec ps) [] <;> simp
    | strct o sp =>
      have h1 := IHf (.fields o sp) (acc ++ [Token.structBegin])
      have h2 := IHf (.fields o sp) [Token.structBegin]
      simp only [List.append_assoc, List.cons_append, List.singleton_append,
        List.nil_append] at h1 h2
      cases h : writeGo fuel (.fields o sp) [] <;>
        simp [writeGo, h, h1, h2]
    | fields o sp =>
      cases sp with
      | nil => simp [writeGo]
      | consNone rest =>
        simp only [writeGo]
        exact IHf (.fields o rest) acc
      | consSome e rest =>
        simp only [writeGo]
        cases hl : wlookup o e.fname with
        | none => simp
        | some ov =>
          cases ov with
          | none => simpa using IHf (.fields o rest) acc
          | some v =>
            have h1 := IHf (.val e.ftype e.fspec v)
              (acc ++ [Token.fieldBegin (some e.fname) e.ftype e.ffid])
            have h2 := IHf (.val e.ftype e.fspec v)
              [Token.fieldBegin (some e.fname) e.ftype e.ffid]
            simp only [List.append_assoc, List.cons_append,
              List.singleton_append, List.nil_append] at h1 h2
            cases hv : writeGo fuel (.val e.ftype e.fspec v) [] with
            | error e2 => simp [hv] at h1 h2; simp [h1, h2, hv]
            | ok body =>
              simp only [hv, except_map_ok] at h1 h2
              have h3 := IHf (.fields o rest)
                (acc ++ (Token.fieldBegin (some e.fname) e.ftype e.ffid ::
                  (body ++ [Token.fieldEnd])))
              have h4 := IHf (.fields o rest)
                (Token.fieldBegin (some e.fname) e.ftype e.ffid ::
                  (body ++ [Token.fieldEnd]))
              simp only [List.append_assoc, List.cons_append,
                List.singleton_append, List.nil_append] at h3 h4
              cases ht : writeGo fuel (.fields o rest) [] <;>
                simp [h1, h2, h3, h4, ht]
    | elems et espec es =>
      cases es with
      | nil => simp [writeGo]
      | cons v rest =>
        simp only [writeGo]
        have h1 := IHf (.val et espec v) acc
        cases hv : writeGo fuel (.val et espec v) [] with
        | error e2 => simp [hv] at h1; simp [h1, hv]
        | ok body =>
          simp only [hv, except_map_ok] at h1
          have h3 := IHf (.elems et espec rest) (acc ++ body)
          have h4 := IHf (.elems et espec rest) body
          simp only [List.append_assoc, List.cons_append,
            List.singleton_append, List.nil_append] at h3 h4
          cases ht : writeGo fuel (.elems et espec rest) [] <;>
            simp [h1, h3, h4, ht]
    | pairsJ kt kspec vt vspec ps =>
      cases ps with
      | nil => simp [writeGo]
      | cons k v rest =>
        simp only [writeGo]
        have h1 := IHf (.val kt kspec k) acc
        cases hk : writeGo fuel (.val kt kspec k) [] with
        | error e2 => simp [hk] at h1; simp [h1, hk]
        | ok kb =>
          simp only [hk, except_map_ok] at h1
          have h2 := IHf (.val vt vspec v) (acc ++ kb)
          have h2b := IHf (.val vt vspec v) kb
          simp only [List.append_assoc, List.cons_append,
            List.singleton_append, List.nil_append] at h2 h2b
          cases hv : writeGo fuel (.val vt vspec v) [] with
          | error e2 => simp [hv] at h2 h2b; simp [h1, h2, h2b, hv]
          | ok vb =>
            simp only [hv, except_map_ok] at h2 h2b
            have h3 := IHf (.pairsJ kt kspec vt vspec rest) (acc ++ (kb ++ vb))
            have h4 := IHf (.pairsJ kt kspec vt vspec rest) (kb ++ vb)
            simp only [List.append_assoc, List.cons_append,
              List.singleton_append, List.nil_append] at h3 h4
            cases ht : writeGo fuel (.pairsJ kt kspec vt vspec rest) [] <;>
              simp [h1, h2, h2b, h3, h4, ht]

/-- The `writeStruct` field loop emits exactly the claim-side field
sequence. -/
theorem writeFields_eq_fieldSeq (fuel : Nat) :
    ∀ (o : WObj) (sp : SpecList),
      writeGo fuel (.fields o sp) [] = fieldSeq fuel o sp := by
  induction fuel using Nat.strong_induction_on with
  | _ fuel IH =>
  cases fuel with
  | zero => intro o sp; simp [writeGo, fieldSeq]
  | succ fuel =>
    have IHf := IH fuel (by omega)
    intro o sp
    cases sp with
    | nil => simp [writeGo, fieldSeq]
    | consNone rest => simp only [writeGo, fieldSeq]; exact IHf o rest
    | consSome e rest =>
      simp only [writeGo, fieldSeq]
      cases hl : wlookup o e.fname with
      | none => simp
      | some ov =>
        cases ov with
        | none => simpa using IHf o rest
        | some v =>
          have h1 := writeGo_append fuel (.val e.ftype e.fspec v)
            [Token.fieldBegin (some e.fname) e.ftype e.ffid]
          simp only [List.nil_append] at h1
          cases hv : writeGo fuel (.val e.ftype e.fspec v) [] with
          | error e2 => simp [hv] at h1; simp [h1, hv]
          | ok body =>
            simp only [hv, except_map_ok] at h1
            have h3 := writeGo_append fuel (.fields o rest)
              (Token.fieldBegin (some e.fname) e.ftype e.ffid ::
                (body ++ [Token.fieldEnd]))
            simp only [List.append_assoc, List.cons_append,
              List.singleton_append, List.nil_append] at h1 h3
            rw [IHf o rest] at h3
            cases ht : fieldSeq fuel o rest <;>
              simp [h1, h3, ht, hv]

/-- C2: for every struct value and `thrift_spec`, `writeStruct` emits a
struct-begin, then — for each non-`None` spec entry in declaration order
whose attribute value is not the unset sentinel `None` — a field header
(name, wire type, field id) followed by the type-dispatched encoded value
and a field-end marker (fields whose value is `None` are never written),
and after all fields always a STOP field marker (then struct-end); the
whole is appended after the bytes already buffered. -/
theorem c2_writeStruct_shape (fuel : Nat) (o : WObj) (sp : SpecList)
    (acc : List Token) :
    writeStructT (fuel + 1) o sp acc =
      (fieldSeq fuel o sp).map (fun body =>
        acc ++ (Token.structBegin ::
          (body ++ [Token.fieldBegin none TType.STOP 0, Token.structEnd]))) := by
  have h1 := writeGo_append fuel (.fields o sp) (acc ++ [Token.structBegin])
  simp only [List.append_assoc, List.cons_append, List.singleton_append,
    List.nil_append] at h1
  rw [writeFields_eq_fieldSeq fuel o sp] at h1
  cases ht : fieldSeq fuel o sp <;>
    simp [writeStructT, writeGo, h1, ht]

example :
    writeStructT 9
      (.consSome "x" (.wI32 5) (.consNone "y" .nil))
      (.consNone (.consSome (.mk 1 TType.I32 "x" .scalar)
        (.consSome (.mk 2 TType.I64 "y" .scalar) .nil)))
      [.tBool false]
    = .ok [.tBool false, .structBegin, .fieldBegin (some "x") TType.I32 1,
           .tI32 5, .fieldEnd, .fieldBegin none TType.STOP 0, .structEnd] := rfl

/-! ### Error taxonomy (`TTransportException` / `TProtocolException` kinds)

`thrift/transport/TTransport.py` itself is not part of the sources here;
its exception *codes* are referenced by name from `TTornado.py` and
`TProtocol.py`, so they are modelled as symbolic constructors.  The split
between `transportErr` and `protocolErr` mirrors which exception class a
piece of code raises. -/

inductive TTransCode where
  | unknownT | notOpen | alreadyOpen | timedOut | endOfFile
  | negativeSize | sizeLimit
deriving DecidableEq, Repr

inductive TProtoCode where
  | unknownP | invalidData | negativeSize | sizeLimit | badVersion
  | notImpl | depthLimit
deriving DecidableEq, Repr

inductive ErrKind where
  | transportErr (c : TTransCode) : ErrKind
  | protocolErr (c : TProtoCode) : ErrKind
  | structPackError : ErrKind
  | unmodeled : ErrKind
deriving DecidableEq, Repr

def isProtocolErr : ErrKind → Bool
  | .protocolErr _ => true
  | _ => false

/-! ### Big-endian 32-bit framing (`struct.pack('!i', n)` / `unpack`) -/

/-- The four big-endian base-256 digits of `n % 2^32`. -/
def be32ofNat (n : Nat) : List Nat :=
  [n / 2 ^ 24 % 256, n / 2 ^ 16 % 256, n / 2 ^ 8 % 256, n % 256]

/-- `struct.pack('!i', n)`: 4-byte big-endian two's-complement; raises
`struct.error` (`none`) outside the signed 32-bit range. -/
def packBE32 (n : Int) : Option (List Nat) :=
  if -(2 ^ 31) ≤ n ∧ n < 2 ^ 31 then some (be32ofNat (n % 2 ^ 32).toNat)
  else none

/-- `struct.unpack('!i', ...)` of four bytes: signed big-endian. -/
def unpackBE32 (b3 b2 b1 b0 : Nat) : Int :=
  let u : Nat := b3 * 2 ^ 24 + b2 * 2 ^ 16 + b1 * 2 ^ 8 + b0
  if u < 2 ^ 31 then (u : Int) else (u : Int) - 2 ^ 32

theorem unpackBE32_be32ofNat (n : Nat) (h : n < 2 ^ 31) :
    unpackBE32 (n / 2 ^ 24 % 256) (n / 2 ^ 16 % 256) (n / 2 ^ 8 % 256)
      (n % 256) = (n : Int) := by
  have hu : n / 2 ^ 24 % 256 * 2 ^ 24 + n / 2 ^ 16 % 256 * 2 ^ 16 +
      n / 2 ^ 8 % 256 * 2 ^ 8 + n % 256 = n := by omega
  simp only [unpackBE32, hu]
  rw [if_pos h]

/-! ### `TTornadoStreamTransport` write buffer and `flush`

State: the `BytesIO` write buffer and whether `self.stream` is set.  The
outcome of the single `stream.write` call is injected as an `IOFault`
oracle (`ioErr` = `socket.error`/`IOError`, translated by
`io_exception_context` to `END_OF_FILE`; `bufferFull` =
`StreamBufferFullError`, translated to `UNKNOWN`).  Source order is kept:
the frame is snapshotted and the length prefix packed *before* the buffer
is replaced by a fresh `BytesIO`, and the underlying write happens after
the replacement, so the buffer is empty afterwards even when the write
fails. -/

structure TornState where
  wbuf : List Nat
  streamOpen : Bool
deriving DecidableEq, Repr

inductive IOFault where
  | ioErr | bufferFull
deriving DecidableEq, Repr

/-- `write(buf)`: append to the internal buffer, no I/O. -/
def writeT (st : TornState) (buf : List Nat) : TornState :=
  { st with wbuf := st.wbuf ++ buf }

/-- `flush()`: returns the bytes handed to the single underlying
`stream.write` (or the translated error), paired with the state after. -/
def flushT (st : TornState) (fault : Option IOFault) :
    Except ErrKind (List Nat) × TornState :=
  if st.streamOpen = false then (.error (.transportErr .notOpen), st)
  else
    match packBE32 (st.wbuf.length : Int) with
    | none => (.error .structPackError, st)
    | some hdr =>
      let st2 : TornState := { st with wbuf := [] }
      match fault with
      | some .ioErr => (.error (.transportErr .endOfFile), st2)
      | some .bufferFull => (.error (.transportErr .unknownT), st2)
      | none => (.ok (hdr ++ st.wbuf), st2)

theorem writeT_foldl (chunks : List (List Nat)) :
    ∀ st : TornState, chunks.foldl writeT st =
      ⟨st.wbuf ++ chunks.flatten, st.streamOpen⟩ := by
  induction chunks with
  | nil => intro st; simp
  | cons c rest ih =>
    intro st
    simp only [List.foldl_cons, List.flatten_cons, ih, writeT]
    simp

theorem flushT_core (st : TornState) (fault : Option IOFault)
    (hopen : st.streamOpen = true) (h : (st.wbuf.length : Int) < 2 ^ 31) :
    (flushT st fault).2.wbuf = [] ∧
    (flushT st none).1 = .ok (be32ofNat st.wbuf.length ++ st.wbuf) := by
  have hpack : packBE32 (st.wbuf.length : Int) =
      some (be32ofNat st.wbuf.length) := by
    simp only [packBE32]
    rw [if_pos (by omega)]
    have h2 : (((st.wbuf.length : Int)) % 2 ^ 32).toNat = st.wbuf.length := by
      omega
    rw [h2]
  constructor
  · unfold flushT
    rw [hopen, if_neg (by simp), hpack]
    cases fault with
    | none => rfl
    | some f => cases f <;> rfl
  · unfold flushT
    rw [hopen, if_neg (by simp), hpack]

/-- C3: flushing after `write` calls totalling `N` buffered bytes hands
the underlying stream exactly one write of `4 + N` bytes — the 4-byte
big-endian signed encoding of `N` immediately followed by those `N`
bytes — and the internal buffer is replaced by a fresh empty one before
the write is attempted, so it is empty after `flush` for every fault
outcome of the underlying write. -/
theorem c3_flush_frames_buffer (chunks : List (List Nat))
    (fault : Option IOFault)
    (hN : (chunks.flatten.length : Int) < 2 ^ 31) :
    (chunks.foldl writeT ⟨[], true⟩).wbuf = chunks.flatten ∧
    ((flushT (chunks.foldl writeT ⟨[], true⟩) fault).2.wbuf = []) ∧
    ((flushT (chunks.foldl writeT ⟨[], true⟩) none).1 =
      .ok (be32ofNat chunks.flatten.length ++ chunks.flatten)) ∧
    (be32ofNat chunks.flatten.length ++ chunks.flatten).length =
      4 + chunks.flatten.length ∧
    unpackBE32 (chunks.flatten.length / 2 ^ 24 % 256)
      (chunks.flatten.length / 2 ^ 16 % 256)
      (chunks.flatten.length / 2 ^ 8 % 256) (chunks.flatten.length % 256) =
      (chunks.flatten.length : Int) := by
  have hfold := writeT_foldl chunks ⟨[], true⟩
  simp only [List.nil_append] at hfold
  rw [hfold]
  have hcore := flushT_core ⟨chunks.flatten, true⟩ fault rfl hN
  have hlen : (be32ofNat chunks.flatten.length ++ chunks.flatten).length =
      4 + chunks.flatten.length := by
    rw [List.length_append]
    rfl
  exact ⟨rfl, hcore.1, hcore.2, hlen,
    unpackBE32_be32ofNat _ (by omega)⟩

theorem c3_witness :
    ((([[7, 8], [9]] : List (List Nat)).foldl writeT ⟨[], true⟩).wbuf =
        [7, 8, 9]) ∧
      (flushT (([[7, 8], [9]] : List (List Nat)).foldl writeT ⟨[], true⟩)
        (some .ioErr)).2.wbuf = [] ∧
      (flushT (([[7, 8], [9]] : List (List Nat)).foldl writeT ⟨[], true⟩)
        none).1 = .ok [0, 0, 0, 3, 7, 8, 9] := by
  have h := c3_flush_frames_buffer [[7, 8], [9]] (some .ioErr) (by decide)
  have h2 := c3_flush_frames_buffer [[7, 8], [9]] none (by decide)
  exact ⟨h.1, h.2.1, by simpa using h2.2.2.1⟩

/-! ### `TTornadoStreamTransport.readFrame`

The Tornado stream is modelled as the byte sequence still readable
before the peer's close: `stream.read_bytes(n)` yields exactly `n` bytes
when available and raises `StreamClosedError` (an `IOError`) otherwise,
which `io_exception_context` translates to `END_OF_FILE`.  A `none`
stream is the `NOT_OPEN` check.  `readFrame` reads exactly 4 header
bytes, unpacks them as a signed big-endian length, then reads exactly
that many payload bytes; the source's `len(frame_header) == 0` guard is
subsumed here because a read on an already-closed stream raises rather
than returning zero bytes.  Handing a negative count to
`read_bytes` is outside the modelled contract (`unmodeled`). -/

def readFrameT : Option (List Nat) → Except ErrKind (List Nat × List Nat)
  | none => .error (.transportErr .notOpen)
  | some (b3 :: b2 :: b1 :: b0 :: rest) =>
    let len := unpackBE32 b3 b2 b1 b0
    if len < 0 then .error .unmodeled
    else if len.toNat ≤ rest.length then
      .ok (rest.take len.toNat, rest.drop len.toNat)
    else .error (.transportErr .endOfFile)
  | some _ => .error (.transportErr .endOfFile)

/-- C7: `readFrame` reads exactly 4 bytes, interprets them as a signed
big-endian length `N`, then reads exactly `N` payload bytes and returns
them as one frame; a stream with zero bytes available at the header
position yields `END_OF_FILE` (not a zero-length frame), and an
underlying stream close mid-header or mid-payload is translated to a
transport-level `END_OF_FILE` error. -/
theorem c7_readFrame (N : Nat) (payload s : List Nat)
    (hN : N < 2 ^ 31) :
    (N ≤ payload.length →
      readFrameT (some (be32ofNat N ++ payload)) =
        .ok (payload.take N, payload.drop N)) ∧
    readFrameT (some []) = .error (.transportErr .endOfFile) ∧
    (s.length < 4 → readFrameT (some s) = .error (.transportErr .endOfFile)) ∧
    (payload.length < N →
      readFrameT (some (be32ofNat N ++ payload)) =
        .error (.transportErr .endOfFile)) := by
  have hun : unpackBE32 (N / 2 ^ 24 % 256) (N / 2 ^ 16 % 256)
      (N / 2 ^ 8 % 256) (N % 256) = (N : Int) := unpackBE32_be32ofNat N hN
  refine ⟨?_, rfl, ?_, ?_⟩
  · intro hle
    simp only [be32ofNat, List.cons_append, List.nil_append, readFrameT, hun]
    rw [if_neg (by omega), if_pos (by simpa using hle)]
    simp
  · intro hs
    match s, hs with
    | [], _ => rfl
    | [a], _ => rfl
    | [a, b], _ => rfl
    | [a, b, c], _ => rfl
    | a :: b :: c :: d :: t, hs =>
      simp only [List.length_cons] at hs
      omega
  · intro hgt
    simp only [be32ofNat, List.cons_append, List.nil_append, readFrameT, hun]
    rw [if_neg (by omega), if_neg (by simpa using hgt)]

theorem c7_witness :
    (2 ≤ ([5, 6, 7] : List Nat).length ∧
      readFrameT (some (be32ofNat 2 ++ [5, 6, 7])) = .ok ([5, 6], [7])) ∧
    readFrameT (some []) = .error (.transportErr .endOfFile) ∧
    (([9, 9] : List Nat).length < 4 ∧
      readFrameT (some [9, 9]) = .error (.transportErr .endOfFile)) ∧
    (([5] : List Nat).length < 2 ∧
      readFrameT (some (be32ofNat 2 ++ [5])) =
        .error (.transportErr .endOfFile)) := by
  have h := c7_readFrame 2 [5, 6, 7] [9, 9] (by decide)
  have h2 := c7_readFrame 2 [5] [9, 9] (by decide)
  exact ⟨⟨by decide, by simpa using h.1 (by decide)⟩, h.2.1,
    ⟨by decide, h.2.2.1 (by decide)⟩, ⟨by decide, h2.2.2.2 (by decide)⟩⟩

/-! ### `_Lock` in `TTornado.py`

The deque `_waiters` holds one future per acquirer, in arrival order.
`acquire` appends its future and suspends on the previous last future
(none when the deque was empty, in which case the caller holds the lock
at once).  `release` pops the leftmost future — the holder's own — and
resolves it, waking the next waiter in line.  So the queue front is
always the current holder, a new acquirer is granted immediately iff the
queue was empty, and each release grants the new front if any.
`release` on an empty deque trips the source's assertion (`none`). -/

abbrev LockState := List Nat

inductive LEvent where
  | acq (id : Nat) : LEvent
  | rel : LEvent

/-- One step: returns the new queue and the id granted by this step, if
any; `none` overall is the failed `release` assertion. -/
def lockStep : LockState → LEvent → Option (LockState × Option Nat)
  | st, .acq i => some (st ++ [i], if st.isEmpty then some i else none)
  | [], .rel => none
  | _ :: t, .rel => some (t, t.head?)

/-- Run a trace, collecting grants in the order they occur. -/
def lockRun : LockState → List LEvent → Option (LockState × List Nat)
  | st, [] => some (st, [])
  | st, e :: es =>
    match lockStep st e with
    | none => none
    | some (st2, g) =>
      match lockRun st2 es with
      | none => none
      | some (stf, gs) => some (stf, g.toList ++ gs)

def enqueues : List LEvent → List Nat
  | [] => []
  | .acq i :: es => i :: enqueues es
  | .rel :: es => enqueues es

/-- `release()` as called by the scope guard; `none` is the source's
`assert self.acquired()` tripping. -/
def releaseL : LockState → Option LockState
  | [] => none
  | _ :: t => some t

/-- `_lock_context`: run the guarded body; whatever its outcome (normal
or raised), release happens exactly once (`try`/`finally`). -/
def lockContextRun {ε α : Type} (st : LockState) (body : Except ε α) :
    Except ε α × Option LockState :=
  (body, releaseL st)

theorem lockRun_inv : ∀ (evs : List LEvent) (st0 stf : LockState)
    (gs : List Nat), lockRun st0 evs = some (stf, gs) →
    st0 ++ enqueues evs = st0.head?.toList ++ gs ++ stf.tail := by
  intro evs
  induction evs with
  | nil =>
    intro st0 stf gs h
    simp only [lockRun, Option.some.injEq, Prod.mk.injEq] at h
    obtain ⟨h1, h2⟩ := h
    subst h1; subst h2
    cases st0 <;> simp [enqueues]
  | cons e es ih =>
    intro st0 stf gs h
    cases e with
    | acq i =>
      simp only [lockRun, lockStep] at h
      cases hrun : lockRun (st0 ++ [i]) es with
      | none => rw [hrun] at h; simp at h
      | some p =>
        obtain ⟨st2, gs2⟩ := p
        rw [hrun] at h
        simp only [Option.some.injEq, Prod.mk.injEq] at h
        obtain ⟨h1, h2⟩ := h
        subst h1
        have hinv := ih (st0 ++ [i]) _ gs2 hrun
        cases st0 with
        | nil =>
          simp only [List.nil_append] at hinv ⊢
          simp only [enqueues, ← h2]
          simpa using hinv
        | cons a t =>
          simp only [enqueues, ← h2]
          simp only [List.cons_append, List.head?_cons] at hinv ⊢
          simp only [List.isEmpty_cons, Option.toList] at h2 ⊢
          simp only [Option.toList_some] at hinv
          simp at hinv
          simp [hinv]
    | rel =>
      cases st0 with
      | nil => simp [lockRun, lockStep] at h
      | cons a t =>
        simp only [lockRun, lockStep] at h
        cases hrun : lockRun t es with
        | none => rw [hrun] at h; simp at h
        | some p =>
          obtain ⟨st2, gs2⟩ := p
          rw [hrun] at h
          simp only [Option.some.injEq, Prod.mk.injEq] at h
          obtain ⟨h1, h2⟩ := h
          subst h1
          have hinv := ih t _ gs2 hrun
          simp only [enqueues, ← h2]
          simp only [List.cons_append, List.head?_cons, Option.toList_some]
          simp [← hinv]

/-- C4: for every event trace on the connection read lock, at most one
acquirer holds the lock at any time (the holder is the unique queue
front), grants occur exactly in enqueue (arrival) order — the grant
sequence of any successful run from the free lock is the prefix of the
enqueue order that excludes only the still-queued waiters — and the
scoped guard returned by `acquire` performs exactly one `release` on
every exit path of the guarded body, normal or raised. -/
theorem c4_lock_fifo_mutex_guard :
    (∀ (evs : List LEvent) (stf : LockState) (gs : List Nat),
      lockRun [] evs = some (stf, gs) → enqueues evs = gs ++ stf.tail) ∧
    (∀ (st : LockState) (a b : Nat),
      st.head? = some a → st.head? = some b → a = b) ∧
    (∀ (st : LockState) (body : Except Unit Nat),
      lockContextRun st body = (body, releaseL st)) := by
  refine ⟨?_, ?_, ?_⟩
  · intro evs stf gs h
    have hinv := lockRun_inv evs [] stf gs h
    simpa using hinv
  · intro st a b ha hb
    rw [ha] at hb
    exact Option.some.inj hb
  · intro st body
    rfl

theorem c4_witness :
    lockRun [] [.acq 1, .acq 2, .acq 3, .rel, .rel, .rel] =
        some ([], [1, 2, 3]) ∧
      enqueues [.acq 1, .acq 2, .acq 3, .rel, .rel, .rel] = [1, 2, 3] ++ [] ∧
      lockContextRun [5, 6] (Except.error () : Except Unit Nat) =
        (.error (), some [6]) :=
  ⟨rfl,
    c4_lock_fifo_mutex_guard.1 [.acq 1, .acq 2, .acq 3, .rel, .rel, .rel]
      [] [1, 2, 3] rfl,
    c4_lock_fifo_mutex_guard.2.2 [5, 6] (.error ())⟩

/-! ### SASL client negotiation (`ThriftSASLClientProtocol.connectionMade`)

Status codes from the source class. -/

namespace SaslCode

def START : Nat := 1
def OK : Nat := 2
def BAD : Nat := 3
def ERROR : Nat := 4
def COMPLETE : Nat := 5

end SaslCode

/-- The local SASL mechanism as a deterministic oracle: `mname` is the
mechanism name sent in START, `proc chals` is `sasl.process(...)` after
the given challenge history (`proc []` is the initial response), and
`isComplete chals` is `sasl.complete` at that point. -/
structure SaslMech where
  mname : List Nat
  proc : List (List Nat) → List Nat
  isComplete : List (List Nat) → Bool

/-- Outcome of `connectionMade`: `connected` reaches
`ThriftClientProtocol.connectionMade` (negotiation success);
`failedPremature` is the raised `TTransportException` for a server
claiming completion while the local mechanism is not complete;
`failedBadStatus` is the raised `TTransportException` for a BAD, ERROR
or unknown status; `pendingInput` means the incoming messages ran out
while still negotiating (the coroutine is still awaiting). -/
inductive NegOutcome where
  | connected : NegOutcome
  | failedPremature : NegOutcome
  | failedBadStatus (s : Nat) : NegOutcome
  | pendingInput : NegOutcome
deriving DecidableEq, Repr

/-- The receive loop of `connectionMade`: on OK(challenge) compute and
send OK(process(challenge)) and continue; on COMPLETE succeed iff the
local mechanism reports completion; on any other status abort. -/
def negLoop (m : SaslMech) : List (List Nat) → List (Nat × List Nat) →
    NegOutcome × List (Nat × List Nat)
  | _, [] => (.pendingInput, [])
  | chals, (s, chal) :: rest =>
    if s = SaslCode.OK then
      let resp := m.proc (chals ++ [chal])
      let out := negLoop m (chals ++ [chal]) rest
      (out.1, (SaslCode.OK, resp) :: out.2)
    else if s = SaslCode.COMPLETE then
      if m.isComplete chals then (.connected, []) else (.failedPremature, [])
    else (.failedBadStatus s, [])

/-- `connectionMade`: send START(mechanism) then OK(initial response),
then run the receive loop.  Returns the outcome and every message sent,
in order. -/
def connectionMadeT (m : SaslMech) (incoming : List (Nat × List Nat)) :
    NegOutcome × List (Nat × List Nat) :=
  let out := negLoop m [] incoming
  (out.1, (SaslCode.START, m.mname) :: (SaslCode.OK, m.proc []) :: out.2)

/-- Modelled from the spec (§4.4 SaslNegotiator): the abstract
negotiation state machine — NOT_STARTED → NEGOTIATING once START/OK are
sent; NEGOTIATING stays NEGOTIATING on OK, moves to COMPLETE on a
COMPLETE status when local negotiation also reports completion and to
FAILED otherwise; BAD/ERROR (or any other status) move to FAILED; no
transition leaves COMPLETE or FAILED. -/
inductive SaslState where
  | notStarted : SaslState
  | negotiating : SaslState
  | completeS : SaslState
  | failedS : SaslState
deriving DecidableEq, Repr

def specSaslStep (localComplete : Bool) : SaslState → Nat → SaslState
  | .negotiating, s =>
    if s = SaslCode.OK then .negotiating
    else if s = SaslCode.COMPLETE then
      (if localComplete then .completeS else .failedS)
    else .failedS
  | st, _ => st

def specSaslRun (m : SaslMech) : List (List Nat) → SaslState →
    List (Nat × List Nat) → SaslState
  | _, st, [] => st
  | chals, st, (s, chal) :: rest =>
    specSaslRun m (if s = SaslCode.OK then chals ++ [chal] else chals)
      (specSaslStep (m.isComplete chals) st s) rest

/-- The OK responses the spec prescribes for a run of the loop. -/
def okResponses (m : SaslMech) : List (List Nat) → List (Nat × List Nat) →
    List (Nat × List Nat)
  | _, [] => []
  | chals, (s, chal) :: rest =>
    if s = SaslCode.OK then
      (SaslCode.OK, m.proc (chals ++ [chal])) ::
        okResponses m (chals ++ [chal]) rest
    else []

theorem specSaslRun_terminal (m : SaslMech) :
    ∀ (msgs : List (Nat × List Nat)) (chals : List (List Nat))
      (st : SaslState), st = .completeS ∨ st = .failedS →
      specSaslRun m chals st msgs = st := by
  intro msgs
  induction msgs with
  | nil => intro chals st _; rfl
  | cons p rest ih =>
    intro chals st hst
    obtain ⟨s, chal⟩ := p
    have hstep : specSaslStep (m.isComplete chals) st s = st := by
      rcases hst with h | h <;> subst h <;> rfl
    simp only [specSaslRun, hstep]
    exact ih _ st hst

theorem negLoop_spec (m : SaslMech) : ∀ (msgs : List (Nat × List Nat))
    (chals : List (List Nat)),
    ((negLoop m chals msgs).1 = .connected ↔
      specSaslRun m chals .negotiating msgs = .completeS) ∧
    (((negLoop m chals msgs).1 = .failedPremature ∨
        (∃ s, (negLoop m chals msgs).1 = .failedBadStatus s)) ↔
      specSaslRun m chals .negotiating msgs = .failedS) ∧
    ((negLoop m chals msgs).1 = .pendingInput ↔
      specSaslRun m chals .negotiating msgs = .negotiating) ∧
    (negLoop m chals msgs).2 = okResponses m chals msgs := by
  intro msgs
  induction msgs with
  | nil =>
    intro chals
    refine ⟨by simp [negLoop, specSaslRun], ?_,
      by simp [negLoop, specSaslRun], by simp [negLoop, okResponses]⟩
    constructor
    · rintro (h | ⟨s, h⟩) <;> simp [negLoop] at h
    · intro h; simp [specSaslRun] at h
  | cons p rest ih =>
    intro chals
    obtain ⟨s, chal⟩ := p
    by_cases hok : s = SaslCode.OK
    · subst hok
      have ihc := ih (chals ++ [chal])
      simp only [negLoop, specSaslRun, specSaslStep, okResponses, if_pos rfl]
      simpa using ihc
    · by_cases hc : s = SaslCode.COMPLETE
      · subst hc
        have hne : ¬((SaslCode.COMPLETE : Nat) = SaslCode.OK) := by decide
        have hterm := specSaslRun_terminal m rest chals
        simp only [negLoop, specSaslRun, specSaslStep, okResponses,
          if_neg hne, if_pos rfl]
        cases hcomp : m.isComplete chals with
        | true =>
          have ht := hterm .completeS (Or.inl rfl)
          simp [ht]
        | false =>
          have ht := hterm .failedS (Or.inr rfl)
          simp [ht]
      · have hterm := specSaslRun_terminal m rest chals
        have ht := hterm .failedS (Or.inr rfl)
        simp only [negLoop, specSaslRun, specSaslStep, okResponses,
          if_neg hok, if_neg hc]
        simp [ht, hok]

/-- C5: starting not-started, the client negotiator first sends
START(mechanism) then OK(initial response); the receive loop then
refines the spec's SASL state machine: each received OK(challenge)
computes and sends OK(response) and remains negotiating; a received
COMPLETE yields success exactly when the local mechanism also reports
completion and otherwise fails with a transport error (server claimed
completion prematurely); any other received status (BAD, ERROR or
unknown) aborts negotiation with a failure. -/
theorem c5_sasl_negotiator (m : SaslMech) (incoming : List (Nat × List Nat)) :
    ((connectionMadeT m incoming).2 =
      (SaslCode.START, m.mname) :: (SaslCode.OK, m.proc []) ::
        okResponses m [] incoming) ∧
    ((connectionMadeT m incoming).1 = .connected ↔
      specSaslRun m [] .negotiating incoming = .completeS) ∧
    (((connectionMadeT m incoming).1 = .failedPremature ∨
        (∃ s, (connectionMadeT m incoming).1 = .failedBadStatus s)) ↔
      specSaslRun m [] .negotiating incoming = .failedS) ∧
    (∀ chal rest, incoming = (SaslCode.COMPLETE, chal) :: rest →
      ((connectionMadeT m incoming).1 = .connected ↔
        m.isComplete [] = true) ∧
      ((connectionMadeT m incoming).1 = .failedPremature ↔
        m.isComplete [] = false)) := by
  have h := negLoop_spec m incoming []
  refine ⟨?_, ?_, ?_, ?_⟩
  · simp only [connectionMadeT]
    rw [h.2.2.2]
  · simpa [connectionMadeT] using h.1
  · simpa [connectionMadeT] using h.2.1
  · intro chal rest hinc
    subst hinc
    have hne : ¬((SaslCode.COMPLETE : Nat) = SaslCode.OK) := by decide
    simp only [connectionMadeT, negLoop, if_neg hne, if_pos rfl]
    cases hcomp : m.isComplete [] <;> simp

def c5DemoMech : SaslMech where
  mname := [71]
  proc := fun chals => [chals.length]
  isComplete := fun chals => chals.length == 1

theorem c5_witness :
    ((connectionMadeT c5DemoMech
        [(SaslCode.OK, [9]), (SaslCode.COMPLETE, [])]).1 = .connected) ∧
    ((connectionMadeT c5DemoMech
        [(SaslCode.OK, [9]), (SaslCode.COMPLETE, [])]).2 =
      [(SaslCode.START, [71]), (SaslCode.OK, [0]), (SaslCode.OK, [1])]) ∧
    ((connectionMadeT c5DemoMech [(SaslCode.BAD, [])]).1 = .failedPremature ∨
      ∃ s, (connectionMadeT c5DemoMech [(SaslCode.BAD, [])]).1 =
        .failedBadStatus s) ∧
    ((connectionMadeT c5DemoMech [(SaslCode.COMPLETE, [])]).1 =
      .failedPremature) := by
  refine ⟨?_, ?_, ?_, ?_⟩
  · exact (c5_sasl_negotiator c5DemoMech
      [(SaslCode.OK, [9]), (SaslCode.COMPLETE, [])]).2.1.mpr rfl
  · exact ((c5_sasl_negotiator c5DemoMech
      [(SaslCode.OK, [9]), (SaslCode.COMPLETE, [])]).1).trans rfl
  · exact (c5_sasl_negotiator c5DemoMech [(SaslCode.BAD, [])]).2.2.1.mpr rfl
  · exact ((c5_sasl_negotiator c5DemoMech
      [(SaslCode.COMPLETE, [])]).2.2.2 [] [] rfl).2.mpr rfl

/-! ### `TProtocolBase._check_length` and `checkIntegerLimits` -/

/-- `_check_length(limit, length)`: negative lengths raise
`TTransportException(NEGATIVE_SIZE)`; with a configured limit, lengths
above it raise `TTransportException(SIZE_LIMIT)`; otherwise no effect.
The check itself performs no allocation — it runs before any buffer for
the declared size is created.  Note both failures are raised as
*transport* exceptions in the source. -/
def check_length (limit : Option Int) (length : Int) : Except ErrKind Unit :=
  if length < 0 then .error (.transportErr .negativeSize)
  else
    match limit with
    | some l => if length > l then .error (.transportErr .sizeLimit) else .ok ()
    | none => .ok ()

/-- C8 counterexample: the claim classifies the NegativeSize/SizeLimit
failures per the spec's taxonomy as protocol errors for malformed wire
content, but `_check_length` raises `TTransportException` — a
transport-layer error — e.g. at declared length `-1` with no limit. -/
theorem c8_counterexample :
    check_length none (-1) = .error (.transportErr .negativeSize) ∧
      isProtocolErr (.transportErr .negativeSize) = false ∧
      check_length (some 10) 11 = .error (.transportErr .sizeLimit) ∧
      isProtocolErr (.transportErr .sizeLimit) = false :=
  ⟨rfl, rfl, rfl, rfl⟩

/-- C8 (amended): the codec's length check fails with a NEGATIVE_SIZE
error when the declared length is negative, fails with a SIZE_LIMIT
error when a limit is configured and the length exceeds it, and
otherwise returns without effect; the failing cases return before any
allocation proportional to the claimed size, and both failures are
raised as transport-layer exceptions (`TTransportException`), not
protocol exceptions. -/
theorem c8_check_length (limit : Option Int) (length : Int) :
    (length < 0 →
      check_length limit length = .error (.transportErr .negativeSize)) ∧
    (∀ l, limit = some l → 0 ≤ length → l < length →
      check_length limit length = .error (.transportErr .sizeLimit)) ∧
    (0 ≤ length → (limit = none ∨ ∃ l, limit = some l ∧ length ≤ l) →
      check_length limit length = .ok ()) ∧
    (∀ e, check_length limit length = .error e → isProtocolErr e = false) := by
  refine ⟨?_, ?_, ?_, ?_⟩
  · intro h
    simp [check_length, h]
  · intro l hl hge hlt
    subst hl
    simp only [check_length]
    rw [if_neg (by omega), if_pos (by omega)]
  · intro hge hcase
    rcases hcase with h | ⟨l, hl, hle⟩
    · subst h
      simp only [check_length]
      rw [if_neg (by omega)]
    · subst hl
      simp only [check_length]
      rw [if_neg (by omega), if_neg (by omega)]
  · intro e he
    simp only [check_length] at he
    by_cases h0 : length < 0
    · rw [if_pos h0] at he
      cases he
      rfl
    · rw [if_neg h0] at he
      cases limit with
      | none => simp at he
      | some l =>
        by_cases hgt : length > l
        · simp only [hgt, if_true, Except.error.injEq] at he
          subst he
          rfl
        · simp [hgt] at he

theorem c8_witness :
    check_length (some 10) (-1) = .error (.transportErr .negativeSize) ∧
      check_length (some 10) 11 = .error (.transportErr .sizeLimit) ∧
      check_length (some 10) 10 = .ok () ∧
      check_length none 1000000 = .ok () :=
  ⟨(c8_check_length (some 10) (-1)).1 (by decide),
    (c8_check_length (some 10) 11).2.1 10 rfl (by decide) (by decide),
    (c8_check_length (some 10) 10).2.2.1 (by decide)
      (Or.inr ⟨10, rfl, by decide⟩),
    (c8_check_length none 1000000).2.2.1 (by decide) (Or.inl rfl)⟩

/-- `checkIntegerLimits(i, bits)` from `TProtocol.py`: the `if`/`elif`
chain raising `TProtocolException(INVALID_DATA)` outside the signed
range of the given width. -/
def checkIntegerLimits (i : Int) (bits : Nat) : Except ErrKind Unit :=
  if bits = 8 ∧ (i < -128 ∨ i > 127) then
    .error (.protocolErr .invalidData)
  else if bits = 16 ∧ (i < -32768 ∨ i > 32767) then
    .error (.protocolErr .invalidData)
  else if bits = 32 ∧ (i < -2147483648 ∨ i > 2147483647) then
    .error (.protocolErr .invalidData)
  else if bits = 64 ∧ (i < -9223372036854775808 ∨ i > 9223372036854775807) then
    .error (.protocolErr .invalidData)
  else .ok ()

/-- C9: for every integer `i` and `bits` in 8, 16, 32, 64,
`checkIntegerLimits i bits` fails with `INVALID_DATA` iff `i` lies
outside the signed range of that width, and returns without effect
otherwise. -/
theorem c9_checkIntegerLimits (i : Int) (bits : Nat)
    (hbits : bits = 8 ∨ bits = 16 ∨ bits = 32 ∨ bits = 64) :
    (checkIntegerLimits i bits = .error (.protocolErr .invalidData) ↔
      (i < -(2 ^ (bits - 1)) ∨ 2 ^ (bits - 1) - 1 < i)) ∧
    (checkIntegerLimits i bits = .ok () ↔
      (-(2 ^ (bits - 1)) ≤ i ∧ i ≤ 2 ^ (bits - 1) - 1)) := by
  rcases hbits with h | h | h | h <;> subst h <;>
    constructor <;> constructor <;> intro hh <;>
    first
      | (simp only [checkIntegerLimits] at hh
         split at hh <;> simp_all <;> omega)
      | (simp only [checkIntegerLimits]
         norm_num at hh ⊢
         omega)

theorem c9_witness :
    checkIntegerLimits 128 8 = .error (.protocolErr .invalidData) ∧
      checkIntegerLimits (-32768) 16 = .ok () :=
  ⟨(c9_checkIntegerLimits 128 8 (Or.inl rfl)).1.mpr (by decide),
    (c9_checkIntegerLimits (-32768) 16 (Or.inr (Or.inl rfl))).2.mpr
      (by decide)⟩
